import Mathlib

/-
Verification of the background task scheduler (`Scheduler` class, file
`src/unnamed/part_005` of the repository).

The scheduler is asynchronous JavaScript built on a promise chain.  We embed
it as a labelled transition system: the synchronous bookkeeping operations of
the class (`runTask`, `_executeJob`'s synchronous prefix, `_timeoutJob`,
`_unregisterJob`, `_tryRunNextJobInChannel`, `_removeJobFromChannel`,
`_tryToUnstallChannels`) become pure functions on an explicit scheduler state,
and every point where the promise chain suspends (the `dao.cron.startJob`
acknowledgement, the executor's own work settling, the `dao.cron.finishJob`
acknowledgement, the `setTimeout` timer firing, the executor reporting a
warning or an error through its `Job` handle) becomes an externally scheduled
`Event`.  Fallible internal operations return `Except SchedError _`: an
`.error` value is one of the `throw new Error(...)` branches of the source.

The `JobImpl` value object itself is not among the repository's staged files
(only the scheduler that drives it is), so its record fields follow the
spec's data model (§3, §4.2): `status` moves `queued → running → finished`
via the `setStatus` calls visible in the scheduler, `warning`/`error` append
to the two message lists, and `timedOut` is an orthogonal flag.  The fields
`phase`, `timerArmed`, `finishCalled` and `executorInvoked` are bookkeeping
of the embedding (where in the promise chain the job stands, whether the live
timer is pending, whether `dao.cron.finishJob` and the executor were ever
invoked); they mirror the control flow of `_executeJob`, not stored fields.
-/

namespace CronScheduler

/-- Job lifecycle states, per the spec's §4.2 state machine and the
`setStatus('running', _)` / `setStatus('finished', _)` calls in
`_executeJob`. -/
inductive JobStatus
  | queued
  | running
  | finished
deriving DecidableEq, Repr

/-- The `JobResult` union `'success' | 'partial' | 'failure'`. -/
inductive JobResult
  | success
  | partialResult
  | failure
deriving DecidableEq, Repr

/-- Embedding bookkeeping: the suspension point of `_executeJob`'s promise
chain that a job is currently parked at.

* `inChannel`: created and pushed onto a channel queue; `_executeJob` has not
  run for it yet.
* `awaitingStart`: `_executeJob`'s synchronous prefix ran (the job is in
  `_runningJobs`); the `dao.cron.startJob` promise is pending.
* `executing`: the start acknowledgement arrived, the executor was invoked,
  the timeout timer armed and the status set to `running`; the executor's
  `work` promise is pending.
* `awaitingFinish`: the executor's work settled (or the start-log rejection
  was caught) and the result was classified; the finish-log step is pending.
* `done`: the final continuation ran (`setStatus('finished', _)`). -/
inductive Phase
  | inChannel
  | awaitingStart
  | executing
  | awaitingFinish
  | done
deriving DecidableEq, Repr

/-- One execution attempt of a named task: the `JobImpl` object as the
scheduler sees it, plus the embedding bookkeeping fields documented in the
file header. -/
structure SJob where
  executionId : Nat
  taskName : String
  timeout : Nat
  channel : Option String
  silent : Bool
  status : JobStatus
  timedOut : Bool
  warnings : List String
  errors : List String
  logId : Option Nat
  /-- whether `job.timeoutId` has been assigned (`notNil(job.timeoutId)`
  throws exactly when it has not). -/
  timeoutIdSet : Bool
  /-- whether the `setTimeout` timer is live (armed, not yet fired and not
  yet cleared). -/
  timerArmed : Bool
  /-- the classified `jobResult`, once computed. -/
  result : Option JobResult
  /-- whether `dao.cron.finishJob` was reached (the `notNil` calls in front of
  it throw, caught by the following `.catch`, when start-up never ran). -/
  finishCalled : Bool
  /-- whether `job.executor(...)` was ever invoked. -/
  executorInvoked : Bool
  phase : Phase
deriving DecidableEq, Repr

/-- The `JobChannel` class: a name, at most one running job, a FIFO queue.
Jobs are referred to by `executionId`. -/
structure JobChannel where
  name : String
  runningJob : Option Nat
  queue : List Nat
deriving DecidableEq, Repr

/-- The `TaskOptions` interface. -/
structure TaskOptions where
  channel : Option String
  silent : Bool
deriving DecidableEq, Repr

/-- The scheduler state: the module-level `_nextExecutionId` counter, the job
store (object heap), `_runningJobs` and `_channels` (as an insertion-ordered
list, matching the iteration order of a JavaScript `Map`). -/
structure Scheduler where
  nextExecutionId : Nat
  jobs : List SJob
  runningJobs : List Nat
  channels : List JobChannel
deriving DecidableEq, Repr

/-- The `throw new Error(...)` branches of the scheduler, plus `missingJob`
for a dangling job id (impossible in the source, where jobs are object
references; kept to make every lookup total). -/
inductive SchedError
  | missingJob
  | alreadyExecuted
  | alreadyRunning
  | orphanedJob
  | cannotRemove
deriving DecidableEq, Repr

/-- Dereference a job id in the store. -/
def getJob (s : Scheduler) (i : Nat) : Option SJob :=
  s.jobs.find? (fun j => j.executionId == i)

/-- Mutate the job object with id `i` in place. -/
def setJob (s : Scheduler) (i : Nat) (f : SJob → SJob) : Scheduler :=
  { s with jobs := s.jobs.map (fun j => if j.executionId = i then f j else j) }

/-- The `taskName` of the job a stored id refers to (defaulted for a dangling
id, which never occurs in reachable states). -/
def jobNameD (s : Scheduler) (i : Nat) : String :=
  match getJob s i with
  | some j => j.taskName
  | none => ""

/-- `_findRunningJob`: `findWhere(this._runningJobs, {taskName})`, the first
running job carrying the name. -/
def findRunningJob (s : Scheduler) (t : String) : Option Nat :=
  s.runningJobs.find? (fun i => jobNameD s i == t)

/-- `_isRunning`. -/
def isRunning (s : Scheduler) (t : String) : Bool :=
  (findRunningJob s t).isSome

/-- Look a channel up by name (`this._channels.get(channelName)`). -/
def findChannel (s : Scheduler) (cn : String) : Option JobChannel :=
  s.channels.find? (fun c => c.name == cn)

/-- `_getChannel`: look the channel up, lazily creating (and registering) an
empty one on first reference. -/
def getChannel (s : Scheduler) (cn : String) : Scheduler × JobChannel :=
  match findChannel s cn with
  | some c => (s, c)
  | none =>
      let c : JobChannel := ⟨cn, none, []⟩
      ({ s with channels := s.channels ++ [c] }, c)

/-- Mutate the channel named `cn` in place. -/
def setChannel (s : Scheduler) (cn : String) (f : JobChannel → JobChannel) :
    Scheduler :=
  { s with channels := s.channels.map (fun c => if c.name = cn then f c else c) }

/-- `_findQueuedTaskInChannel`: nothing when no channel is named; otherwise
the first job of that channel's queue carrying the name (note that the
`_getChannel` call lazily creates the channel). -/
def findQueuedTaskInChannel (s : Scheduler) (t : String) (cn : Option String) :
    Scheduler × Option Nat :=
  match cn with
  | none => (s, none)
  | some n =>
      let p := getChannel s n
      (p.1, p.2.queue.find? (fun i => jobNameD p.1 i == t))

/-- `_executeJob`'s synchronous prefix: the two invariant guards, then the
push onto `_runningJobs` and the kick-off of the `dao.cron.startJob` promise
(the job parks at `awaitingStart`). -/
def executeJob (s : Scheduler) (i : Nat) : Except SchedError Scheduler :=
  match getJob s i with
  | none => .error .missingJob
  | some j =>
      if j.status ≠ .queued then .error .alreadyExecuted
      else if isRunning s j.taskName then .error .alreadyRunning
      else .ok (setJob { s with runningJobs := s.runningJobs ++ [i] } i
        (fun j => { j with phase := .awaitingStart }))

/-- The `new JobImpl(...)` construction in `_createAndRunJob`. -/
def newJob (i : Nat) (t : String) (timeout : Nat) (opts : TaskOptions) : SJob :=
  { executionId := i
    taskName := t
    timeout := timeout
    channel := opts.channel
    silent := opts.silent
    status := .queued
    timedOut := false
    warnings := []
    errors := []
    logId := none
    timeoutIdSet := false
    timerArmed := false
    result := none
    finishCalled := false
    executorInvoked := false
    phase := .inChannel }

/-- The scan of `_tryRunNextJobInChannel`: the first queued id whose task
name is not globally running, paired with the queue with that id spliced
out (skipped ids keep their positions). -/
def firstUnblocked (s : Scheduler) : List Nat → Option (Nat × List Nat)
  | [] => none
  | i :: is =>
      if isRunning s (jobNameD s i) then
        match firstUnblocked s is with
        | none => none
        | some (k, rest) => some (k, i :: rest)
      else some (i, is)

/-- `_tryRunNextJobInChannel`: no-op when the channel already has a running
job; otherwise promote the first unblocked queued job (splice it out, set
`runningJob`, call `_executeJob`), leaving the queue untouched when every
queued job is blocked (the stall branch only logs a warning). -/
def tryRunNextJobInChannel (s : Scheduler) (cn : String) :
    Except SchedError Scheduler :=
  match findChannel s cn with
  | none => .ok s
  | some c =>
      if c.runningJob.isSome then .ok s
      else
        match firstUnblocked s c.queue with
        | none => .ok s
        | some (i, rest) =>
            executeJob
              (setChannel s cn (fun c => { c with queue := rest, runningJob := some i }))
              i

/-- `_queueJobToChannel`: push the job, then attempt promotion. -/
def queueJobToChannel (s : Scheduler) (i : Nat) (cn : String) :
    Except SchedError Scheduler :=
  let s1 := (getChannel s cn).1
  let s2 := setChannel s1 cn (fun c => { c with queue := c.queue ++ [i] })
  tryRunNextJobInChannel s2 cn

/-- `_createAndRunJob`: construct the job under the current counter value,
bump the counter, then execute immediately (no channel) or enqueue. -/
def createAndRunJob (s : Scheduler) (t : String) (timeout : Nat)
    (opts : TaskOptions) : Except SchedError (Scheduler × Nat) :=
  let i := s.nextExecutionId
  let s1 : Scheduler :=
    { s with jobs := s.jobs ++ [newJob i t timeout opts], nextExecutionId := i + 1 }
  match opts.channel with
  | none => (executeJob s1 i).map (fun s2 => (s2, i))
  | some cn => (queueJobToChannel s1 i cn).map (fun s2 => (s2, i))

/-- `runTask`: running-duplicate check, same-channel-queued-duplicate check,
then creation.  Returns the (existing or fresh) job's id alongside the new
state. -/
def runTask (s : Scheduler) (t : String) (timeout : Nat) (opts : TaskOptions) :
    Except SchedError (Scheduler × Nat) :=
  match findRunningJob s t with
  | some i => .ok (s, i)
  | none =>
      let p := findQueuedTaskInChannel s t opts.channel
      match p.2 with
      | some i => .ok (p.1, i)
      | none => createAndRunJob p.1 t timeout opts

/-- `getRunningJobs`: the `_runningJobs` array, dereferenced. -/
def getRunningJobs (s : Scheduler) : List SJob :=
  s.runningJobs.filterMap (getJob s)

/-- `_removeJobFromChannel`: nothing for an unchanneled job; else clear the
channel's `runningJob` slot if it holds this job, else splice the job out of
the queue, else throw (`Cannot remove job ...`). -/
def removeJobFromChannel (s : Scheduler) (cn : Option String) (i : Nat) :
    Except SchedError Scheduler :=
  match cn with
  | none => .ok s
  | some n =>
      let p := getChannel s n
      if p.2.runningJob = some i then
        .ok (setChannel p.1 n (fun c => { c with runningJob := none }))
      else if i ∈ p.2.queue then
        .ok (setChannel p.1 n (fun c => { c with queue := c.queue.erase i }))
      else .error .cannotRemove

/-- The loop body of `_tryToUnstallChannels`, over a fixed list of channel
names. -/
def unstallList : Scheduler → List String → Except SchedError Scheduler
  | s, [] => .ok s
  | s, n :: ns =>
      match tryRunNextJobInChannel s n with
      | .ok s1 => unstallList s1 ns
      | .error e => .error e

/-- `_tryToUnstallChannels`: re-attempt promotion on every channel, in Map
insertion order. -/
def tryToUnstallChannels (s : Scheduler) : Except SchedError Scheduler :=
  unstallList s (s.channels.map (fun c => c.name))

/-- `_unregisterJob`: splice the job out of `_runningJobs` (throwing
`Orphaned job detected` if absent), remove it from its channel, then the
global unstall pass. -/
def unregisterJob (s : Scheduler) (i : Nat) : Except SchedError Scheduler :=
  if i ∈ s.runningJobs then
    match getJob s i with
    | none => .error .missingJob
    | some j =>
        match
          removeJobFromChannel
            { s with runningJobs := s.runningJobs.erase i } j.channel i with
        | .ok s1 => tryToUnstallChannels s1
        | .error e => .error e
  else .error .orphanedJob

/-- `_timeoutJob`: unregister, then mark `timedOut` (in that order; the
executor itself is untouched). -/
def timeoutJob (s : Scheduler) (i : Nat) : Except SchedError Scheduler :=
  match unregisterJob s i with
  | .ok s1 => .ok (setJob s1 i (fun j => { j with timedOut := true }))
  | .error e => .error e

/-- The `'failure'`/`'partial'`/`'success'` classification of `_executeJob`. -/
def classify (errors warnings : List String) : JobResult :=
  if errors ≠ [] then .failure
  else if warnings ≠ [] then .partialResult
  else .success

/-- The continuation of `_executeJob` that runs when the executor's work
settles (`executorError = none` on fulfilment, `some msg` on rejection) or
when the start-log rejection falls through the first `.catch`
(`executorError = some msg`, the executor never having run): append the
captured error, classify, clear the timer unless the job timed out, and call
`dao.cron.finishJob`.  The two `notNil` calls throw when `_executeJob`'s
start continuation never ran (no `timeoutId`, no `logId`); the throw is
swallowed by the following `.catch`, skipping the finish-log call, and the
job parks at `awaitingFinish` either way. -/
def execFinish (s : Scheduler) (i : Nat) (executorError : Option String) :
    Scheduler :=
  match getJob s i with
  | none => s
  | some j =>
      let newErrors :=
        match executorError with
        | some msg => j.errors ++ [msg]
        | none => j.errors
      let res := classify newErrors j.warnings
      let reachedFinish := (j.timedOut || j.timeoutIdSet) && j.logId.isSome
      setJob s i (fun j0 => { j0 with
        errors := newErrors
        result := some res
        timerArmed := if !j.timedOut && j.timeoutIdSet then false else j0.timerArmed
        finishCalled := reachedFinish
        phase := .awaitingFinish })

/-- `job.setStatus('finished', jobResult)` plus parking at `done`. -/
def setFinished (s : Scheduler) (i : Nat) : Scheduler :=
  setJob s i (fun j => { j with status := .finished, phase := .done })

/-- The final continuation of `_executeJob`'s chain: unless the job already
timed out, unregister it and run the (second) global unstall pass; then mark
it finished. -/
def finishStep (s : Scheduler) (i : Nat) : Except SchedError Scheduler :=
  match getJob s i with
  | none => .error .missingJob
  | some j =>
      if j.timedOut then .ok (setFinished s i)
      else
        match unregisterJob s i with
        | .ok s1 =>
            match tryToUnstallChannels s1 with
            | .ok s2 => .ok (setFinished s2 i)
            | .error e => .error e
        | .error e => .error e

/-- The start-acknowledgement continuation of `_executeJob`: record the log
id, invoke the executor, arm the timer, `setStatus('running', 'pending')`. -/
def startOkStep (s : Scheduler) (i : Nat) (logId : Nat) : Scheduler :=
  setJob s i (fun j => { j with
    logId := some logId
    executorInvoked := true
    timeoutIdSet := true
    timerArmed := true
    status := .running
    phase := .executing })

/-- The `setTimeout` callback: the timer is consumed, then `_timeoutJob`. -/
def timerFireStep (s : Scheduler) (i : Nat) : Except SchedError Scheduler :=
  timeoutJob (setJob s i (fun j => { j with timerArmed := false })) i

/-- The externally scheduled occurrences driving the system: public API
calls, promise resolutions/rejections, executor progress reports, and timer
expirations. -/
inductive Event
  | runTask (t : String) (timeout : Nat) (opts : TaskOptions)
  | startOk (i : Nat) (logId : Nat)
  | startFail (i : Nat) (msg : String)
  | warn (i : Nat) (msg : String)
  | report (i : Nat) (msg : String)
  | execDone (i : Nat) (threw : Option String)
  | finishSettle (i : Nat)
  | timerFire (i : Nat)
deriving DecidableEq, Repr

/-- One transition: `none` when the event cannot occur in this state (a
promise that is not pending cannot settle, a timer that is not live cannot
fire), otherwise the scheduler's reaction, `.error` marking a fatal
`throw`. -/
def step (s : Scheduler) (e : Event) : Option (Except SchedError Scheduler) :=
  match e with
  | .runTask t timeout opts =>
      some ((runTask s t timeout opts).map (fun p => p.1))
  | .startOk i logId =>
      match getJob s i with
      | some j =>
          if j.phase = .awaitingStart then some (.ok (startOkStep s i logId))
          else none
      | none => none
  | .startFail i msg =>
      match getJob s i with
      | some j =>
          if j.phase = .awaitingStart then some (.ok (execFinish s i (some msg)))
          else none
      | none => none
  | .warn i msg =>
      match getJob s i with
      | some j =>
          if j.phase = .executing then
            some (.ok (setJob s i (fun j => { j with warnings := j.warnings ++ [msg] })))
          else none
      | none => none
  | .report i msg =>
      match getJob s i with
      | some j =>
          if j.phase = .executing then
            some (.ok (setJob s i (fun j => { j with errors := j.errors ++ [msg] })))
          else none
      | none => none
  | .execDone i threw =>
      match getJob s i with
      | some j =>
          if j.phase = .executing then some (.ok (execFinish s i threw))
          else none
      | none => none
  | .finishSettle i =>
      match getJob s i with
      | some j =>
          if j.phase = .awaitingFinish then some (finishStep s i)
          else none
      | none => none
  | .timerFire i =>
      match getJob s i with
      | some j => if j.timerArmed then some (timerFireStep s i) else none
      | none => none

/-- The scheduler as constructed: empty. -/
def initScheduler : Scheduler :=
  { nextExecutionId := 0, jobs := [], runningJobs := [], channels := [] }

/-- States reachable from the fresh scheduler through event sequences whose
every step succeeds. -/
inductive Reachable : Scheduler → Prop
  | init : Reachable initScheduler
  | next {s : Scheduler} {e : Event} {s1 : Scheduler} :
      Reachable s → step s e = some (.ok s1) → Reachable s1

/-- Drive the scheduler through a list of events, failing if any event is
not enabled or throws. -/
def runStepsOk : Scheduler → List Event → Option Scheduler
  | s, [] => some s
  | s, e :: es =>
      match step s e with
      | some (.ok s1) => runStepsOk s1 es
      | _ => none

/-- The state after a trace from the fresh scheduler (the fresh scheduler
itself if the trace is invalid). -/
def stateAfter (es : List Event) : Scheduler :=
  (runStepsOk initScheduler es).getD initScheduler

/-- The scheduler's well-formedness invariant, parameterized by an optional
exempt job id `x`: the clause tying a live phase to `_runningJobs`
membership is waived for `x`.  The exemption models the window inside
`_unregisterJob`/`_timeoutJob`/the finish continuation where the job has
already been spliced out of the bookkeeping but its own record has not yet
been updated; `Inv s` (no exemption) is the invariant between steps. -/
structure InvE (s : Scheduler) (x : Option Nat) : Prop where
  ids_nodup : (s.jobs.map SJob.executionId).Nodup
  ids_lt : ∀ j ∈ s.jobs, j.executionId < s.nextExecutionId
  chan_nodup : (s.channels.map JobChannel.name).Nodup
  running_names : (s.runningJobs.map (jobNameD s)).Nodup
  running_mem : ∀ i ∈ s.runningJobs, ∃ j, getJob s i = some j ∧
      (j.phase = .awaitingStart ∨ j.phase = .executing ∨ j.phase = .awaitingFinish) ∧
      j.timedOut = false
  queue_names : ∀ c ∈ s.channels, (c.queue.map (jobNameD s)).Nodup
  queue_mem : ∀ c ∈ s.channels, ∀ i ∈ c.queue, ∃ j, getJob s i = some j ∧
      j.phase = .inChannel ∧ j.channel = some c.name
  slot_mem : ∀ c ∈ s.channels, ∀ i, c.runningJob = some i →
      i ∈ s.runningJobs ∧ ∃ j, getJob s i = some j ∧ j.channel = some c.name
  job_inch : ∀ j ∈ s.jobs, j.phase = .inChannel →
      j.status = .queued ∧ j.timedOut = false ∧ j.timerArmed = false ∧
      j.timeoutIdSet = false ∧ j.executorInvoked = false ∧ j.result = none ∧
      ∃ c ∈ s.channels, j.channel = some c.name ∧ j.executionId ∈ c.queue
  job_aS : ∀ j ∈ s.jobs, j.phase = .awaitingStart →
      j.status = .queued ∧ j.timedOut = false ∧ j.timerArmed = false ∧
      j.timeoutIdSet = false ∧ j.executorInvoked = false ∧ j.result = none
  job_ex : ∀ j ∈ s.jobs, j.phase = .executing →
      j.status = .running ∧ j.timeoutIdSet = true ∧ j.result = none
  job_aF : ∀ j ∈ s.jobs, j.phase = .awaitingFinish →
      j.timerArmed = false ∧ j.result.isSome ∧
      (j.status = .running ∨ j.status = .queued)
  job_done : ∀ j ∈ s.jobs, j.phase = .done →
      j.status = .finished ∧ j.timerArmed = false
  timer_ex : ∀ j ∈ s.jobs, j.timerArmed = true →
      j.phase = .executing ∧ j.timedOut = false
  job_running : ∀ j ∈ s.jobs, some j.executionId ≠ x → j.timedOut = false →
      (j.phase = .awaitingStart ∨ j.phase = .executing ∨ j.phase = .awaitingFinish) →
      j.executionId ∈ s.runningJobs
  job_chan_slot : ∀ j ∈ s.jobs, j.executionId ∈ s.runningJobs →
      ∀ cn, j.channel = some cn →
      ∃ c ∈ s.channels, c.name = cn ∧ c.runningJob = some j.executionId
  inactive_free : ∀ j ∈ s.jobs, (j.timedOut = true ∨ j.phase = .done) →
      j.executionId ∉ s.runningJobs ∧
      ∀ c ∈ s.channels, c.runningJob ≠ some j.executionId ∧ j.executionId ∉ c.queue
  notq_free : ∀ j ∈ s.jobs, j.phase ≠ .inChannel →
      ∀ c ∈ s.channels, j.executionId ∉ c.queue
  inch_free : ∀ j ∈ s.jobs, j.phase = .inChannel →
      j.executionId ∉ s.runningJobs ∧
      ∀ c ∈ s.channels, c.runningJob ≠ some j.executionId

/-- The between-steps invariant. -/
def Inv (s : Scheduler) : Prop := InvE s none

/-- A job id absent from every piece of scheduler bookkeeping (`_runningJobs`,
channel `runningJob` slots and queues). -/
def Detached (s : Scheduler) (i : Nat) : Prop :=
  i ∉ s.runningJobs ∧ ∀ c ∈ s.channels, c.runningJob ≠ some i ∧ i ∉ c.queue

theorem InvE.mono {s : Scheduler} {x : Option Nat} (h : InvE s none) : InvE s x :=
  { h with job_running := fun j hj _ => h.job_running j hj (by simp) }

theorem getJob_eq_some {s : Scheduler} {i : Nat} {j : SJob}
    (h : getJob s i = some j) : j ∈ s.jobs ∧ j.executionId = i := by
  unfold getJob at h
  have h1 := List.find?_some h
  have h2 := List.mem_of_find?_eq_some h
  exact ⟨h2, by simpa using h1⟩

theorem find?_key_of_mem {l : List SJob} {j : SJob}
    (hn : (l.map SJob.executionId).Nodup) (hj : j ∈ l) :
    l.find? (fun a => a.executionId == j.executionId) = some j := by
  induction l with
  | nil => cases hj
  | cons a l ih =>
      simp only [List.map_cons, List.nodup_cons] at hn
      rcases List.mem_cons.mp hj with h | h
      · subst h; simp
      · have hne : (a.executionId == j.executionId) = false := by
          simp only [beq_eq_false_iff_ne, ne_eq]
          intro he
          exact hn.1 (he ▸ List.mem_map_of_mem SJob.executionId h)
        rw [List.find?_cons_of_neg _ (by simp [hne])]
        exact ih hn.2 h

theorem getJob_of_mem {s : Scheduler} {j : SJob}
    (hn : (s.jobs.map SJob.executionId).Nodup) (hj : j ∈ s.jobs) :
    getJob s j.executionId = some j :=
  find?_key_of_mem hn hj

theorem getJob_mem_unique {s : Scheduler} {i : Nat} {j j0 : SJob}
    (hn : (s.jobs.map SJob.executionId).Nodup)
    (h : getJob s i = some j) (h0 : j0 ∈ s.jobs) (hid : j0.executionId = i) :
    j0 = j := by
  have h1 := getJob_of_mem hn h0
  rw [hid, h] at h1
  exact (Option.some_inj.mp h1).symm

theorem setJob_nextExecutionId (s : Scheduler) (i : Nat) (f : SJob → SJob) :
    (setJob s i f).nextExecutionId = s.nextExecutionId := rfl

theorem setJob_runningJobs (s : Scheduler) (i : Nat) (f : SJob → SJob) :
    (setJob s i f).runningJobs = s.runningJobs := rfl

theorem setJob_channels (s : Scheduler) (i : Nat) (f : SJob → SJob) :
    (setJob s i f).channels = s.channels := rfl

theorem setJob_map_executionId (s : Scheduler) (i : Nat) (f : SJob → SJob)
    (hid : ∀ j, (f j).executionId = j.executionId) :
    (setJob s i f).jobs.map SJob.executionId = s.jobs.map SJob.executionId := by
  unfold setJob
  simp only [List.map_map]
  apply List.map_congr_left
  intro j _
  by_cases h : j.executionId = i <;> simp [h, hid]

theorem find?_update_key {i k : Nat} {f : SJob → SJob}
    (hid : ∀ j, (f j).executionId = j.executionId) (l : List SJob) :
    (l.map (fun j => if j.executionId = i then f j else j)).find?
        (fun j => j.executionId == k) =
      if k = i then (l.find? (fun j => j.executionId == i)).map f
      else l.find? (fun j => j.executionId == k) := by
  induction l with
  | nil => by_cases h : k = i <;> simp [h]
  | cons a l ih =>
      by_cases hki : k = i
      · subst hki
        rw [if_pos rfl] at ih ⊢
        simp only [List.map_cons]
        by_cases hai : a.executionId = k
        · rw [if_pos hai, List.find?_cons_of_pos _ (by simp [hid, hai]),
            List.find?_cons_of_pos _ (by simp [hai])]
          simp
        · rw [if_neg hai, List.find?_cons_of_neg _ (by simp [hai]),
            List.find?_cons_of_neg _ (by simp [hai])]
          exact ih
      · rw [if_neg hki] at ih ⊢
        simp only [List.map_cons]
        by_cases hak : a.executionId = k
        · have hai : ¬ a.executionId = i := by omega
          rw [if_neg hai, List.find?_cons_of_pos _ (by simp [hak]),
            List.find?_cons_of_pos _ (by simp [hak])]
        · by_cases hai : a.executionId = i
          · rw [if_pos hai,
              List.find?_cons_of_neg _ (by simp [hid, hai]; omega),
              List.find?_cons_of_neg _ (by simp [hak])]
            exact ih
          · rw [if_neg hai, List.find?_cons_of_neg _ (by simp [hak]),
              List.find?_cons_of_neg _ (by simp [hak])]
            exact ih

theorem getJob_setJob (s : Scheduler) (i : Nat) (f : SJob → SJob)
    (hid : ∀ j, (f j).executionId = j.executionId) (k : Nat) :
    getJob (setJob s i f) k =
      if k = i then (getJob s i).map f else getJob s k :=
  find?_update_key hid s.jobs

theorem jobNameD_setJob (s : Scheduler) (i : Nat) (f : SJob → SJob)
    (hid : ∀ j, (f j).executionId = j.executionId)
    (hname : ∀ j, (f j).taskName = j.taskName) (k : Nat) :
    jobNameD (setJob s i f) k = jobNameD s k := by
  unfold jobNameD
  rw [getJob_setJob s i f hid k]
  by_cases hk : k = i
  · subst hk
    cases h : getJob s k <;> simp [hname]
  · simp [hk]

theorem map_jobNameD_setJob (s : Scheduler) (i : Nat) (f : SJob → SJob)
    (hid : ∀ j, (f j).executionId = j.executionId)
    (hname : ∀ j, (f j).taskName = j.taskName) (l : List Nat) :
    l.map (jobNameD (setJob s i f)) = l.map (jobNameD s) :=
  List.map_congr_left (fun k _ => jobNameD_setJob s i f hid hname k)

theorem mem_setJob {s : Scheduler} {i : Nat} {f : SJob → SJob} {j : SJob} :
    j ∈ (setJob s i f).jobs ↔
      ∃ j0 ∈ s.jobs, j = if j0.executionId = i then f j0 else j0 := by
  unfold setJob
  simp only [List.mem_map]
  constructor
  · rintro ⟨j0, hj0, rfl⟩
    exact ⟨j0, hj0, by by_cases h : j0.executionId = i <;> simp [h]⟩
  · rintro ⟨j0, hj0, rfl⟩
    exact ⟨j0, hj0, by by_cases h : j0.executionId = i <;> simp [h]⟩

theorem findRunningJob_eq_none {s : Scheduler} {t : String} :
    findRunningJob s t = none ↔ ∀ i ∈ s.runningJobs, jobNameD s i ≠ t := by
  unfold findRunningJob
  rw [List.find?_eq_none]
  simp

theorem findRunningJob_eq_some {s : Scheduler} {t : String} {i : Nat}
    (h : findRunningJob s t = some i) :
    i ∈ s.runningJobs ∧ jobNameD s i = t := by
  unfold findRunningJob at h
  exact ⟨List.mem_of_find?_eq_some h, by simpa using List.find?_some h⟩

theorem isRunning_eq_false_iff {s : Scheduler} {t : String} :
    isRunning s t = false ↔ findRunningJob s t = none := by
  unfold isRunning
  cases findRunningJob s t <;> simp

theorem isRunning_eq_false {s : Scheduler} {t : String} :
    isRunning s t = false ↔ ∀ i ∈ s.runningJobs, jobNameD s i ≠ t := by
  rw [isRunning_eq_false_iff, findRunningJob_eq_none]

theorem findChannel_eq_some {s : Scheduler} {cn : String} {c : JobChannel}
    (h : findChannel s cn = some c) : c ∈ s.channels ∧ c.name = cn := by
  unfold findChannel at h
  exact ⟨List.mem_of_find?_eq_some h, by simpa using List.find?_some h⟩

theorem findChannel_eq_none {s : Scheduler} {cn : String} :
    findChannel s cn = none ↔ ∀ c ∈ s.channels, c.name ≠ cn := by
  unfold findChannel
  rw [List.find?_eq_none]
  simp

theorem find?_chan_of_mem {l : List JobChannel} {c : JobChannel}
    (hn : (l.map JobChannel.name).Nodup) (hc : c ∈ l) :
    l.find? (fun a => a.name == c.name) = some c := by
  induction l with
  | nil => cases hc
  | cons a l ih =>
      simp only [List.map_cons, List.nodup_cons] at hn
      rcases List.mem_cons.mp hc with h | h
      · subst h; simp
      · have hne : (a.name == c.name) = false := by
          simp only [beq_eq_false_iff_ne, ne_eq]
          intro he
          exact hn.1 (he ▸ List.mem_map_of_mem JobChannel.name h)
        rw [List.find?_cons_of_neg _ (by simp [hne])]
        exact ih hn.2 h

theorem findChannel_of_mem {s : Scheduler} {c : JobChannel}
    (hn : (s.channels.map JobChannel.name).Nodup) (hc : c ∈ s.channels) :
    findChannel s c.name = some c :=
  find?_chan_of_mem hn hc

theorem setChannel_jobs (s : Scheduler) (cn : String) (f : JobChannel → JobChannel) :
    (setChannel s cn f).jobs = s.jobs := rfl

theorem setChannel_runningJobs (s : Scheduler) (cn : String)
    (f : JobChannel → JobChannel) :
    (setChannel s cn f).runningJobs = s.runningJobs := rfl

theorem setChannel_nextExecutionId (s : Scheduler) (cn : String)
    (f : JobChannel → JobChannel) :
    (setChannel s cn f).nextExecutionId = s.nextExecutionId := rfl

theorem getJob_setChannel (s : Scheduler) (cn : String)
    (f : JobChannel → JobChannel) (k : Nat) :
    getJob (setChannel s cn f) k = getJob s k := rfl

theorem jobNameD_setChannel (s : Scheduler) (cn : String)
    (f : JobChannel → JobChannel) (k : Nat) :
    jobNameD (setChannel s cn f) k = jobNameD s k := rfl

theorem findRunningJob_setChannel (s : Scheduler) (cn : String)
    (f : JobChannel → JobChannel) (t : String) :
    findRunningJob (setChannel s cn f) t = findRunningJob s t := rfl

theorem setChannel_map_name (s : Scheduler) (cn : String)
    (f : JobChannel → JobChannel) (hn : ∀ c, (f c).name = c.name) :
    (setChannel s cn f).channels.map JobChannel.name =
      s.channels.map JobChannel.name := by
  unfold setChannel
  simp only [List.map_map]
  apply List.map_congr_left
  intro c _
  by_cases h : c.name = cn <;> simp [h, hn]

theorem mem_setChannel {s : Scheduler} {cn : String} {f : JobChannel → JobChannel}
    {c : JobChannel} :
    c ∈ (setChannel s cn f).channels ↔
      ∃ c0 ∈ s.channels, c = if c0.name = cn then f c0 else c0 := by
  unfold setChannel
  simp only [List.mem_map]
  constructor
  · rintro ⟨c0, hc0, rfl⟩
    exact ⟨c0, hc0, by by_cases h : c0.name = cn <;> simp [h]⟩
  · rintro ⟨c0, hc0, rfl⟩
    exact ⟨c0, hc0, by by_cases h : c0.name = cn <;> simp [h]⟩

theorem find?_chan_update {cn : String} {f : JobChannel → JobChannel}
    (hn : ∀ c, (f c).name = c.name) (k : String) :
    ∀ l : List JobChannel,
    (l.map (fun c => if c.name = cn then f c else c)).find?
        (fun c => c.name == k) =
      (l.find? (fun c => c.name == k)).map
        (fun c => if c.name = cn then f c else c)
  | [] => by simp
  | a :: l => by
      by_cases hak : a.name = k
      · by_cases hacn : a.name = cn
        · rw [List.map_cons, if_pos hacn,
            List.find?_cons_of_pos _ (by simp [hn, hak]),
            List.find?_cons_of_pos _ (by simp [hak])]
          simp [hacn]
        · rw [List.map_cons, if_neg hacn,
            List.find?_cons_of_pos _ (by simp [hak]),
            List.find?_cons_of_pos _ (by simp [hak])]
          simp [hacn]
      · by_cases hacn : a.name = cn
        · rw [List.map_cons, if_pos hacn,
            List.find?_cons_of_neg _ (by simp [hn, hak]),
            List.find?_cons_of_neg _ (by simp [hak])]
          exact find?_chan_update hn k l
        · rw [List.map_cons, if_neg hacn,
            List.find?_cons_of_neg _ (by simp [hak]),
            List.find?_cons_of_neg _ (by simp [hak])]
          exact find?_chan_update hn k l

theorem findChannel_setChannel (s : Scheduler) (cn : String)
    (f : JobChannel → JobChannel) (hn : ∀ c, (f c).name = c.name) (k : String) :
    findChannel (setChannel s cn f) k =
      (findChannel s k).map (fun c => if c.name = cn then f c else c) :=
  find?_chan_update hn k s.channels

theorem InvE.running_nodup {s : Scheduler} {x : Option Nat} (h : InvE s x) :
    s.runningJobs.Nodup :=
  h.running_names.of_map (jobNameD s)

theorem chan_mem_unique {s : Scheduler} {x : Option Nat} (h : InvE s x)
    {c c0 : JobChannel} (hc : c ∈ s.channels) (hc0 : c0 ∈ s.channels)
    (hn : c0.name = c.name) : c0 = c := by
  have h1 := findChannel_of_mem h.chan_nodup hc
  have h2 := findChannel_of_mem h.chan_nodup hc0
  rw [hn, h1] at h2
  exact (Option.some_inj.mp h2).symm

theorem queue_nodup {s : Scheduler} {x : Option Nat} (h : InvE s x)
    {c : JobChannel} (hc : c ∈ s.channels) : c.queue.Nodup :=
  (h.queue_names c hc).of_map (jobNameD s)

theorem jobNameD_of_getJob {s : Scheduler} {i : Nat} {j : SJob}
    (h : getJob s i = some j) : jobNameD s i = j.taskName := by
  unfold jobNameD
  rw [h]

theorem firstUnblocked_eq_none_iff {s : Scheduler} {q : List Nat} :
    firstUnblocked s q = none ↔ ∀ p ∈ q, isRunning s (jobNameD s p) = true := by
  induction q with
  | nil => simp [firstUnblocked]
  | cons a q ih =>
      unfold firstUnblocked
      by_cases ha : isRunning s (jobNameD s a) = true
      · rw [if_pos ha]
        cases hf : firstUnblocked s q with
        | none =>
            simp only [List.mem_cons]
            constructor
            · intro _ p hp
              rcases hp with h | h
              · subst h; exact ha
              · exact (ih.mp hf) p h
            · intro _; trivial
        | some pr =>
            constructor
            · intro h; cases h
            · intro h
              have := ih.mpr (fun p hp => h p (List.mem_cons_of_mem _ hp))
              rw [hf] at this; cases this
      · rw [if_neg ha]
        constructor
        · intro h; cases h
        · intro h
          exact absurd (h a (List.mem_cons_self a q)) ha

theorem firstUnblocked_eq_some {s : Scheduler} {q : List Nat} {i : Nat}
    {rest : List Nat} (h : firstUnblocked s q = some (i, rest)) :
    ∃ pre post, q = pre ++ i :: post ∧ rest = pre ++ post ∧
      (∀ p ∈ pre, isRunning s (jobNameD s p) = true) ∧
      isRunning s (jobNameD s i) = false := by
  induction q generalizing rest with
  | nil => cases h
  | cons a q ih =>
      unfold firstUnblocked at h
      by_cases ha : isRunning s (jobNameD s a) = true
      · rw [if_pos ha] at h
        cases hf : firstUnblocked s q with
        | none => rw [hf] at h; cases h
        | some pr =>
            rw [hf] at h
            obtain ⟨k, r⟩ := pr
            simp only [Option.some_inj, Prod.mk.injEq] at h
            obtain ⟨hk, hr⟩ := h
            subst hk
            rcases ih hf with ⟨pre, post, hq, hrest, hblk, hunb⟩
            exact ⟨a :: pre, post, by simp [hq], by simp [hrest, hr.symm],
              fun p hp => by
                rcases List.mem_cons.mp hp with h | h
                · subst h; exact ha
                · exact hblk p h,
              hunb⟩
      · rw [if_neg ha] at h
        simp only [Option.some_inj, Prod.mk.injEq] at h
        obtain ⟨hk, hr⟩ := h
        subst hk
        exact ⟨[], q, rfl, by simp [hr.symm], by simp,
          by simpa using ha⟩

theorem executeJob_eq_ok {s : Scheduler} {i : Nat} {j : SJob}
    (hj : getJob s i = some j) (hq : j.status = .queued)
    (hr : isRunning s j.taskName = false) :
    executeJob s i = .ok (setJob { s with runningJobs := s.runningJobs ++ [i] } i
      (fun j0 => { j0 with phase := .awaitingStart })) := by
  unfold executeJob
  rw [hj]
  simp [hq, hr]

/-- Frame facts common to promotion passes (`_tryRunNextJobInChannel` and
`_tryToUnstallChannels`): the id counter and channel names are untouched,
`_runningJobs` only grows by promoted queue members, job records change only
for promoted queue members, queues only shrink, and a channel slot holds
either what it held before or a job freshly promoted from a queue. -/
structure UnstallFrame (s s1 : Scheduler) : Prop where
  nextId : s1.nextExecutionId = s.nextExecutionId
  chanNames : s1.channels.map JobChannel.name = s.channels.map JobChannel.name
  running_ext : ∃ ext, s1.runningJobs = s.runningJobs ++ ext ∧
      ∀ k ∈ ext, ∃ c ∈ s.channels, k ∈ c.queue
  getJob_pres : ∀ k, (∀ c ∈ s.channels, k ∉ c.queue) → getJob s1 k = getJob s k
  name_pres : ∀ k, jobNameD s1 k = jobNameD s k
  queue_shrink : ∀ c1 ∈ s1.channels, ∀ k ∈ c1.queue,
      ∃ c ∈ s.channels, c.name = c1.name ∧ k ∈ c.queue
  slot_origin : ∀ c1 ∈ s1.channels, ∀ k, c1.runningJob = some k →
      (∃ c ∈ s.channels, c.name = c1.name ∧ c.runningJob = some k) ∨
      (∃ c ∈ s.channels, k ∈ c.queue)

theorem UnstallFrame.refl (s : Scheduler) : UnstallFrame s s where
  nextId := rfl
  chanNames := rfl
  running_ext := ⟨[], by simp⟩
  getJob_pres := fun _ _ => rfl
  name_pres := fun _ => rfl
  queue_shrink := fun c1 h1 k hk => ⟨c1, h1, rfl, hk⟩
  slot_origin := fun c1 h1 k hk => .inl ⟨c1, h1, rfl, hk⟩

theorem UnstallFrame.trans {s s1 s2 : Scheduler}
    (a : UnstallFrame s s1) (b : UnstallFrame s1 s2) : UnstallFrame s s2 where
  nextId := b.nextId.trans a.nextId
  chanNames := b.chanNames.trans a.chanNames
  running_ext := by
    obtain ⟨e1, he1, hq1⟩ := a.running_ext
    obtain ⟨e2, he2, hq2⟩ := b.running_ext
    refine ⟨e1 ++ e2, by rw [he2, he1, List.append_assoc], ?_⟩
    intro k hk
    rcases List.mem_append.mp hk with h | h
    · exact hq1 k h
    · rcases hq2 k h with ⟨c1, hc1, hkc1⟩
      rcases a.queue_shrink c1 hc1 k hkc1 with ⟨c, hc, _, hkc⟩
      exact ⟨c, hc, hkc⟩
  getJob_pres := by
    intro k hk
    have hk1 : ∀ c1 ∈ s1.channels, k ∉ c1.queue := by
      intro c1 hc1 hkc1
      rcases a.queue_shrink c1 hc1 k hkc1 with ⟨c, hc, _, hkc⟩
      exact hk c hc hkc
    rw [b.getJob_pres k hk1, a.getJob_pres k hk]
  name_pres := fun k => (b.name_pres k).trans (a.name_pres k)
  queue_shrink := by
    intro c2 hc2 k hk
    rcases b.queue_shrink c2 hc2 k hk with ⟨c1, hc1, hn1, hk1⟩
    rcases a.queue_shrink c1 hc1 k hk1 with ⟨c, hc, hn, hk0⟩
    exact ⟨c, hc, hn.trans hn1, hk0⟩
  slot_origin := by
    intro c2 hc2 k hk
    rcases b.slot_origin c2 hc2 k hk with ⟨c1, hc1, hn1, hs1⟩ | ⟨c1, hc1, hk1⟩
    · rcases a.slot_origin c1 hc1 k hs1 with ⟨c, hc, hn, hs⟩ | h
      · exact .inl ⟨c, hc, hn.trans hn1, hs⟩
      · exact .inr h
    · rcases a.queue_shrink c1 hc1 k hk1 with ⟨c, hc, _, hkc⟩
      exact .inr ⟨c, hc, hkc⟩

/-- The state produced by the promote branch of `_tryRunNextJobInChannel`:
job `i` spliced out of channel `cn`'s queue (leaving `rest`), installed as
the channel's `runningJob`, pushed onto `_runningJobs` and parked at
`awaitingStart` by `_executeJob`. -/
def promoteState (s : Scheduler) (cn : String) (i : Nat) (rest : List Nat) :
    Scheduler :=
  setJob
    { (setChannel s cn fun c0 => { c0 with queue := rest, runningJob := some i }) with
      runningJobs := s.runningJobs ++ [i] }
    i (fun j0 => { j0 with phase := .awaitingStart })

theorem promoteState_runningJobs (s : Scheduler) (cn : String) (i : Nat)
    (rest : List Nat) :
    (promoteState s cn i rest).runningJobs = s.runningJobs ++ [i] := rfl

theorem promoteState_nextExecutionId (s : Scheduler) (cn : String) (i : Nat)
    (rest : List Nat) :
    (promoteState s cn i rest).nextExecutionId = s.nextExecutionId := rfl

theorem promoteState_getJob (s : Scheduler) (cn : String) (i : Nat)
    (rest : List Nat) (k : Nat) :
    getJob (promoteState s cn i rest) k =
      if k = i then (getJob s i).map (fun j0 => { j0 with phase := .awaitingStart })
      else getJob s k :=
  getJob_setJob
    { (setChannel s cn fun c0 => { c0 with queue := rest, runningJob := some i }) with
      runningJobs := s.runningJobs ++ [i] }
    i (fun j0 => { j0 with phase := .awaitingStart }) (fun _ => rfl) k

theorem promoteState_jobNameD (s : Scheduler) (cn : String) (i : Nat)
    (rest : List Nat) (k : Nat) :
    jobNameD (promoteState s cn i rest) k = jobNameD s k :=
  jobNameD_setJob
    { (setChannel s cn fun c0 => { c0 with queue := rest, runningJob := some i }) with
      runningJobs := s.runningJobs ++ [i] }
    i (fun j0 => { j0 with phase := .awaitingStart }) (fun _ => rfl) (fun _ => rfl) k

theorem promoteState_mem_jobs {s : Scheduler} {cn : String} {i : Nat}
    {rest : List Nat} {j : SJob} :
    j ∈ (promoteState s cn i rest).jobs ↔
      ∃ j0 ∈ s.jobs, j = if j0.executionId = i
        then { j0 with phase := .awaitingStart } else j0 :=
  mem_setJob

theorem promoteState_mem_channels {s : Scheduler} {cn : String} {i : Nat}
    {rest : List Nat} {c : JobChannel} :
    c ∈ (promoteState s cn i rest).channels ↔
      ∃ c0 ∈ s.channels, c = if c0.name = cn
        then { c0 with queue := rest, runningJob := some i } else c0 :=
  mem_setChannel

theorem promoteState_findChannel (s : Scheduler) (cn : String) (i : Nat)
    (rest : List Nat) (k : String) :
    findChannel (promoteState s cn i rest) k =
      (findChannel s k).map (fun c0 => if c0.name = cn
        then { c0 with queue := rest, runningJob := some i } else c0) :=
  findChannel_setChannel s cn
    (fun c0 => { c0 with queue := rest, runningJob := some i }) (fun _ => rfl) k

theorem promote_spec {s : Scheduler} {x : Option Nat} (h : InvE s x)
    {cn : String} {c : JobChannel} {i : Nat} {rest : List Nat}
    (hfc : findChannel s cn = some c) (hslot : c.runningJob = none)
    (hfu : firstUnblocked s c.queue = some (i, rest)) :
    tryRunNextJobInChannel s cn = .ok (promoteState s cn i rest) ∧
      InvE (promoteState s cn i rest) x ∧
      UnstallFrame s (promoteState s cn i rest) ∧
      (∀ k, k ≠ cn → findChannel (promoteState s cn i rest) k = findChannel s k) := by
  obtain ⟨hcmem, hcname⟩ := findChannel_eq_some hfc
  obtain ⟨pre, post, hq, hrest, hblk, hunb⟩ := firstUnblocked_eq_some hfu
  have hiq : i ∈ c.queue := by
    rw [hq]; exact List.mem_append.mpr (.inr (List.mem_cons_self _ _))
  obtain ⟨ji, hji, hjphase, hjchan⟩ := h.queue_mem c hcmem i hiq
  obtain ⟨hjmem, hjid⟩ := getJob_eq_some hji
  obtain ⟨hjstat, hjto, hjarm, hjtid, hjinv, hjres, -⟩ := h.job_inch ji hjmem hjphase
  have hname : jobNameD s i = ji.taskName := jobNameD_of_getJob hji
  have hrun : isRunning s ji.taskName = false := by rw [← hname]; exact hunb
  have hnotin : ∀ k ∈ s.runningJobs, jobNameD s k ≠ ji.taskName :=
    isRunning_eq_false.mp hrun
  obtain ⟨hinotrun, hslots⟩ := h.inch_free ji hjmem hjphase
  rw [hjid] at hinotrun hslots
  have hqnd : c.queue.Nodup := queue_nodup h hcmem
  have hinorest : i ∉ rest := by
    rw [hrest]
    rw [hq] at hqnd
    obtain ⟨hpre, hcons, hdisj⟩ := List.nodup_append.mp hqnd
    intro hmem
    rcases List.mem_append.mp hmem with hm | hm
    · exact hdisj hm (List.mem_cons_self _ _)
    · exact (List.nodup_cons.mp hcons).1 hm
  have hrsub : List.Sublist rest c.queue := by
    rw [hrest, hq]
    exact (List.sublist_cons_self i post).append_left pre
  have huniq : ∀ j0 ∈ s.jobs, j0.executionId = i → j0 = ji :=
    fun j0 h0 hid0 => getJob_mem_unique h.ids_nodup hji h0 hid0
  have hcuniq : ∀ c0 ∈ s.channels, c0.name = cn → c0 = c :=
    fun c0 h0 hn0 => chan_mem_unique h hcmem h0 (hn0.trans hcname.symm)
  have hioq : ∀ c0 ∈ s.channels, c0.name ≠ cn → i ∉ c0.queue := by
    intro c0 hc0 hne hmem
    obtain ⟨ji0, hji0, -, hch0⟩ := h.queue_mem c0 hc0 i hmem
    rw [hji] at hji0
    obtain rfl := Option.some_inj.mp hji0
    rw [hjchan] at hch0
    exact hne ((Option.some_inj.mp hch0).symm ▸ hcname)
  have hrne : ∀ k ∈ s.runningJobs, k ≠ i := fun k hk he => hinotrun (he ▸ hk)
  -- the queue members of the shrunk queue are not the promoted job
  have hrestne : ∀ k ∈ rest, k ≠ i := fun k hk he => hinorest (he ▸ hk)
  have hexec : tryRunNextJobInChannel s cn = .ok (promoteState s cn i rest) := by
    simp only [tryRunNextJobInChannel, hfc, hslot, Option.isSome_none,
      Bool.false_eq_true, if_false, hfu]
    exact executeJob_eq_ok
      (s := setChannel s cn fun c0 => { c0 with queue := rest, runningJob := some i })
      (j := ji) hji hjstat hrun
  refine ⟨hexec, ?_, ?_, ?_⟩
  · -- the invariant on the promoted state
    have hget := promoteState_getJob s cn i rest
    have hnm := promoteState_jobNameD s cn i rest
    have hgi : getJob (promoteState s cn i rest) i =
        some { ji with phase := .awaitingStart } := by
      rw [hget i, if_pos rfl, hji]; rfl
    have hgo : ∀ k, k ≠ i → getJob (promoteState s cn i rest) k = getJob s k := by
      intro k hk; rw [hget k, if_neg hk]
    refine ⟨?_, ?_, ?_, ?_, ?_, ?_, ?_, ?_, ?_, ?_, ?_, ?_, ?_, ?_, ?_, ?_, ?_, ?_, ?_⟩
    · -- ids_nodup
      rw [show (promoteState s cn i rest).jobs.map SJob.executionId
          = s.jobs.map SJob.executionId from setJob_map_executionId _ _ _ (fun _ => rfl)]
      exact h.ids_nodup
    · -- ids_lt
      intro j' hj'
      rcases promoteState_mem_jobs.mp hj' with ⟨j0, hj0, rfl⟩
      have := h.ids_lt j0 hj0
      rw [promoteState_nextExecutionId]
      by_cases he : j0.executionId = i <;> simp only [he, if_true, if_false] <;>
        simp <;> omega
    · -- chan_nodup
      rw [show (promoteState s cn i rest).channels.map JobChannel.name
          = s.channels.map JobChannel.name from setChannel_map_name _ _ _ (fun _ => rfl)]
      exact h.chan_nodup
    · -- running_names
      rw [promoteState_runningJobs,
        List.map_congr_left (fun k _ => hnm k), List.map_append]
      rw [List.nodup_append]
      refine ⟨h.running_names, by simp, ?_⟩
      intro a ha hb
      simp only [List.map_cons, List.map_nil, List.mem_singleton] at hb
      rcases List.mem_map.mp ha with ⟨k, hk, rfl⟩
      exact hnotin k hk (hb.trans hname)
    · -- running_mem
      intro k hk
      rw [promoteState_runningJobs] at hk
      rcases List.mem_append.mp hk with hk | hk
      · obtain ⟨jk, hjk, hp, ht⟩ := h.running_mem k hk
        exact ⟨jk, by rw [hgo k (hrne k hk)]; exact hjk, hp, ht⟩
      · obtain rfl := List.mem_singleton.mp hk
        exact ⟨{ ji with phase := .awaitingStart }, hgi, .inl rfl, hjto⟩
    · -- queue_names
      intro c1 hc1
      rcases promoteState_mem_channels.mp hc1 with ⟨c0, hc0, rfl⟩
      by_cases hn0 : c0.name = cn
      · obtain rfl := hcuniq c0 hc0 hn0
        simp only [if_pos hn0]
        rw [List.map_congr_left (fun k _ => hnm k)]
        exact (h.queue_names c0 hc0).sublist (hrsub.map _)
      · simp only [if_neg hn0]
        rw [List.map_congr_left (fun k _ => hnm k)]
        exact h.queue_names c0 hc0
    · -- queue_mem
      intro c1 hc1 k hkq
      rcases promoteState_mem_channels.mp hc1 with ⟨c0, hc0, rfl⟩
      by_cases hn0 : c0.name = cn
      · obtain rfl := hcuniq c0 hc0 hn0
        simp only [if_pos hn0] at hkq ⊢
        have hkq' : k ∈ c0.queue := hrsub.mem hkq
        obtain ⟨jk, hjk, hp, hch⟩ := h.queue_mem c0 hc0 k hkq'
        exact ⟨jk, by rw [hgo k (hrestne k hkq)]; exact hjk, hp, hch⟩
      · simp only [if_neg hn0] at hkq ⊢
        obtain ⟨jk, hjk, hp, hch⟩ := h.queue_mem c0 hc0 k hkq
        have hkne : k ≠ i := fun he => hioq c0 hc0 hn0 (he ▸ hkq)
        exact ⟨jk, by rw [hgo k hkne]; exact hjk, hp, hch⟩
    · -- slot_mem
      intro c1 hc1 k hk
      rcases promoteState_mem_channels.mp hc1 with ⟨c0, hc0, rfl⟩
      by_cases hn0 : c0.name = cn
      · obtain rfl := hcuniq c0 hc0 hn0
        simp only [if_pos hn0] at hk ⊢
        obtain rfl := Option.some_inj.mp hk
        refine ⟨by rw [promoteState_runningJobs]; exact List.mem_append.mpr (.inr (by simp)), ?_⟩
        exact ⟨{ ji with phase := .awaitingStart }, hgi, by
          show ji.channel = some _
          rw [hjchan]⟩
      · simp only [if_neg hn0] at hk ⊢
        obtain ⟨hkr, jk, hjk, hch⟩ := h.slot_mem c0 hc0 k hk
        have hkne : k ≠ i := hrne k hkr
        refine ⟨by rw [promoteState_runningJobs]; exact List.mem_append.mpr (.inl hkr), ?_⟩
        exact ⟨jk, by rw [hgo k hkne]; exact hjk, hch⟩
    · -- job_inch
      intro j' hj' hp'
      rcases promoteState_mem_jobs.mp hj' with ⟨j0, hj0, rfl⟩
      by_cases he : j0.executionId = i
      · simp only [if_pos he] at hp'; cases hp'
      · simp only [if_neg he] at hp' ⊢
        obtain ⟨h1, h2, h3, h4, h5, h6, c0, hc0, hch, hqm⟩ := h.job_inch j0 hj0 hp'
        refine ⟨h1, h2, h3, h4, h5, h6, ?_⟩
        by_cases hn0 : c0.name = cn
        · obtain rfl := hcuniq c0 hc0 hn0
          refine ⟨{ c0 with queue := rest, runningJob := some i },
            promoteState_mem_channels.mpr ⟨c0, hc0, by rw [if_pos hn0]⟩, by simpa using hch, ?_⟩
          show j0.executionId ∈ rest
          rw [hrest]
          rw [hq] at hqm
          rcases List.mem_append.mp hqm with hm | hm
          · exact List.mem_append.mpr (.inl hm)
          · rcases List.mem_cons.mp hm with hm | hm
            · exact absurd hm he
            · exact List.mem_append.mpr (.inr hm)
        · exact ⟨c0, promoteState_mem_channels.mpr ⟨c0, hc0, by rw [if_neg hn0]⟩, hch, hqm⟩
    · -- job_aS
      intro j' hj' hp'
      rcases promoteState_mem_jobs.mp hj' with ⟨j0, hj0, rfl⟩
      by_cases he : j0.executionId = i
      · obtain rfl := huniq j0 hj0 he
        simp only [if_pos he]
        exact ⟨hjstat, hjto, hjarm, hjtid, hjinv, hjres⟩
      · simp only [if_neg he] at hp' ⊢
        exact h.job_aS j0 hj0 hp'
    · -- job_ex
      intro j' hj' hp'
      rcases promoteState_mem_jobs.mp hj' with ⟨j0, hj0, rfl⟩
      by_cases he : j0.executionId = i
      · simp only [if_pos he] at hp'; cases hp'
      · simp only [if_neg he] at hp' ⊢
        exact h.job_ex j0 hj0 hp'
    · -- job_aF
      intro j' hj' hp'
      rcases promoteState_mem_jobs.mp hj' with ⟨j0, hj0, rfl⟩
      by_cases he : j0.executionId = i
      · simp only [if_pos he] at hp'; cases hp'
      · simp only [if_neg he] at hp' ⊢
        exact h.job_aF j0 hj0 hp'
    · -- job_done
      intro j' hj' hp'
      rcases promoteState_mem_jobs.mp hj' with ⟨j0, hj0, rfl⟩
      by_cases he : j0.executionId = i
      · simp only [if_pos he] at hp'; cases hp'
      · simp only [if_neg he] at hp' ⊢
        exact h.job_done j0 hj0 hp'
    · -- timer_ex
      intro j' hj' ha'
      rcases promoteState_mem_jobs.mp hj' with ⟨j0, hj0, rfl⟩
      by_cases he : j0.executionId = i
      · obtain rfl := huniq j0 hj0 he
        simp only [if_pos he] at ha'
        exact absurd ha' (by simp [hjarm])
      · simp only [if_neg he] at ha' ⊢
        exact h.timer_ex j0 hj0 ha'
    · -- job_running
      intro j' hj' hx' ht' hp'
      rw [promoteState_runningJobs]
      rcases promoteState_mem_jobs.mp hj' with ⟨j0, hj0, rfl⟩
      by_cases he : j0.executionId = i
      · simp only [if_pos he]
        exact List.mem_append.mpr (.inr (by simp [he]))
      · simp only [if_neg he] at hx' ht' hp' ⊢
        exact List.mem_append.mpr (.inl (h.job_running j0 hj0 hx' ht' hp'))
    · -- job_chan_slot
      intro j' hj' hr' cn' hch'
      rcases promoteState_mem_jobs.mp hj' with ⟨j0, hj0, rfl⟩
      by_cases he : j0.executionId = i
      · obtain rfl := huniq j0 hj0 he
        simp only [if_pos he] at hr' hch' ⊢
        have : cn' = cn := by
          rw [hjchan] at hch'
          exact (Option.some_inj.mp hch').symm.trans hcname
        subst this
        exact ⟨{ c with queue := rest, runningJob := some i },
          promoteState_mem_channels.mpr ⟨c, hcmem, by rw [if_pos hcname]⟩,
          hcname, by rw [he]⟩
      · simp only [if_neg he] at hr' hch' ⊢
        rw [promoteState_runningJobs] at hr'
        rcases List.mem_append.mp hr' with hr0 | hr0
        · obtain ⟨c0, hc0, hn0, hs0⟩ := h.job_chan_slot j0 hj0 hr0 cn' hch'
          by_cases hnc : c0.name = cn
          · obtain rfl := hcuniq c0 hc0 hnc
            rw [hslot] at hs0; cases hs0
          · exact ⟨c0, promoteState_mem_channels.mpr ⟨c0, hc0, by rw [if_neg hnc]⟩, hn0, hs0⟩
        · exact absurd (List.mem_singleton.mp hr0) he
    · -- inactive_free
      intro j' hj' hd'
      rcases promoteState_mem_jobs.mp hj' with ⟨j0, hj0, rfl⟩
      by_cases he : j0.executionId = i
      · obtain rfl := huniq j0 hj0 he
        simp only [if_pos he] at hd'
        rcases hd' with hd' | hd'
        · exact absurd hd' (by simp [hjto])
        · cases hd'
      · simp only [if_neg he] at hd' ⊢
        obtain ⟨hnr, hcf⟩ := h.inactive_free j0 hj0 hd'
        constructor
        · rw [promoteState_runningJobs]
          intro hm
          rcases List.mem_append.mp hm with hm | hm
          · exact hnr hm
          · exact he (List.mem_singleton.mp hm)
        · intro c1 hc1
          rcases promoteState_mem_channels.mp hc1 with ⟨c0, hc0, rfl⟩
          obtain ⟨hs0, hq0⟩ := hcf c0 hc0
          by_cases hn0 : c0.name = cn
          · obtain rfl := hcuniq c0 hc0 hn0
            simp only [if_pos hn0]
            refine ⟨by simp; omega, ?_⟩
            show j0.executionId ∉ rest
            intro hm
            exact hq0 (hrsub.mem hm)
          · simp only [if_neg hn0]
            exact ⟨hs0, hq0⟩
    · -- notq_free
      intro j' hj' hp' c1 hc1
      rcases promoteState_mem_jobs.mp hj' with ⟨j0, hj0, rfl⟩
      rcases promoteState_mem_channels.mp hc1 with ⟨c0, hc0, rfl⟩
      by_cases he : j0.executionId = i
      · obtain rfl := huniq j0 hj0 he
        by_cases hn0 : c0.name = cn
        · obtain rfl := hcuniq c0 hc0 hn0
          simp only [if_pos he, if_pos hn0]
          simpa [he] using hinorest
        · simp only [if_pos he, if_neg hn0]
          simpa [he] using hioq c0 hc0 hn0
      · simp only [if_neg he] at hp' ⊢
        have hnq := h.notq_free j0 hj0 hp' c0 hc0
        by_cases hn0 : c0.name = cn
        · obtain rfl := hcuniq c0 hc0 hn0
          simp only [if_pos hn0]
          show j0.executionId ∉ rest
          intro hm
          exact hnq (hrsub.mem hm)
        · simp only [if_neg hn0]
          exact hnq
    · -- inch_free
      intro j' hj' hp'
      rcases promoteState_mem_jobs.mp hj' with ⟨j0, hj0, rfl⟩
      by_cases he : j0.executionId = i
      · simp only [if_pos he] at hp'; cases hp'
      · simp only [if_neg he] at hp' ⊢
        obtain ⟨hnr, hsl⟩ := h.inch_free j0 hj0 hp'
        constructor
        · rw [promoteState_runningJobs]
          intro hm
          rcases List.mem_append.mp hm with hm | hm
          · exact hnr hm
          · exact he (List.mem_singleton.mp hm)
        · intro c1 hc1
          rcases promoteState_mem_channels.mp hc1 with ⟨c0, hc0, rfl⟩
          by_cases hn0 : c0.name = cn
          · obtain rfl := hcuniq c0 hc0 hn0
            simp only [if_pos hn0]
            simp only [ne_eq, Option.some_inj]
            omega
          · simp only [if_neg hn0]
            exact hsl c0 hc0
  · -- the frame
    refine ⟨rfl, setChannel_map_name _ _ _ (fun _ => rfl), ⟨[i], rfl, ?_⟩, ?_,promoteState_jobNameD s cn i rest, ?_, ?_⟩
    · intro k hk
      obtain rfl := List.mem_singleton.mp hk
      exact ⟨c, hcmem, hiq⟩
    · intro k hk
      have hkne : k ≠ i := fun he => hk c hcmem (he ▸ hiq)
      rw [promoteState_getJob, if_neg hkne]
    · intro c1 hc1 k hkq
      rcases promoteState_mem_channels.mp hc1 with ⟨c0, hc0, rfl⟩
      by_cases hn0 : c0.name = cn
      · obtain rfl := hcuniq c0 hc0 hn0
        simp only [if_pos hn0] at hkq ⊢
        exact ⟨c0, hc0, rfl, hrsub.mem hkq⟩
      · simp only [if_neg hn0] at hkq ⊢
        exact ⟨c0, hc0, rfl, hkq⟩
    · intro c1 hc1 k hk
      rcases promoteState_mem_channels.mp hc1 with ⟨c0, hc0, rfl⟩
      by_cases hn0 : c0.name = cn
      · obtain rfl := hcuniq c0 hc0 hn0
        simp only [if_pos hn0] at hk
        obtain rfl := Option.some_inj.mp hk
        exact .inr ⟨c0, hc0, hiq⟩
      · simp only [if_neg hn0] at hk ⊢
        exact .inl ⟨c0, hc0, rfl, hk⟩
  · -- other channels untouched
    intro k hk
    rw [promoteState_findChannel]
    cases hf : findChannel s k with
    | none => rfl
    | some c0 =>
        obtain ⟨-, hn0⟩ := findChannel_eq_some hf
        simp [hn0, hk]

theorem tryRun_spec {s : Scheduler} {x : Option Nat} (h : InvE s x) (cn : String) :
    ∃ s1, tryRunNextJobInChannel s cn = .ok s1 ∧ InvE s1 x ∧ UnstallFrame s s1 ∧
      (∀ k, k ≠ cn → findChannel s1 k = findChannel s k) := by
  cases hfc : findChannel s cn with
  | none =>
      exact ⟨s, by simp [tryRunNextJobInChannel, hfc], h, .refl s, fun _ _ => rfl⟩
  | some c =>
      cases hslot : c.runningJob with
      | some k =>
          exact ⟨s, by simp [tryRunNextJobInChannel, hfc, hslot], h, .refl s,
            fun _ _ => rfl⟩
      | none =>
          cases hfu : firstUnblocked s c.queue with
          | none =>
              exact ⟨s, by simp [tryRunNextJobInChannel, hfc, hslot, hfu], h,
                .refl s, fun _ _ => rfl⟩
          | some pr =>
              obtain ⟨i, rest⟩ := pr
              obtain ⟨he, hi, hf, ho⟩ := promote_spec h hfc hslot hfu
              exact ⟨_, he, hi, hf, ho⟩

theorem unstall_spec {x : Option Nat} :
    ∀ (ns : List String) {s : Scheduler}, InvE s x →
    ∃ s1, unstallList s ns = .ok s1 ∧ InvE s1 x ∧ UnstallFrame s s1
  | [], s, h => ⟨s, rfl, h, .refl s⟩
  | n :: ns, s, h => by
      obtain ⟨s1, he, hi, hf, -⟩ := tryRun_spec h n
      obtain ⟨s2, he2, hi2, hf2⟩ := unstall_spec ns hi
      exact ⟨s2, by simp [unstallList, he, he2], hi2, hf.trans hf2⟩

theorem tryToUnstall_spec {s : Scheduler} {x : Option Nat} (h : InvE s x) :
    ∃ s1, tryToUnstallChannels s = .ok s1 ∧ InvE s1 x ∧ UnstallFrame s s1 := by
  unfold tryToUnstallChannels
  exact unstall_spec _ h

theorem unstallFrame_detached {s s1 : Scheduler} {i : Nat}
    (hf : UnstallFrame s s1) (hd : Detached s i) : Detached s1 i := by
  obtain ⟨hnr, hslots⟩ := hd
  constructor
  · obtain ⟨ext, hext, hq⟩ := hf.running_ext
    rw [hext]
    intro hm
    rcases List.mem_append.mp hm with hm | hm
    · exact hnr hm
    · obtain ⟨c, hc, hkc⟩ := hq i hm
      exact (hslots c hc).2 hkc
  · intro c1 hc1
    constructor
    · intro hs1
      rcases hf.slot_origin c1 hc1 i hs1 with ⟨c, hc, -, hs⟩ | ⟨c, hc, hkc⟩
      · exact (hslots c hc).1 hs
      · exact (hslots c hc).2 hkc
    · intro hq1
      obtain ⟨c, hc, -, hkc⟩ := hf.queue_shrink c1 hc1 i hq1
      exact (hslots c hc).2 hkc

theorem unstallFrame_getJob_detached {s s1 : Scheduler} {i : Nat}
    (hf : UnstallFrame s s1) (hd : Detached s i) : getJob s1 i = getJob s i :=
  hf.getJob_pres i (fun c hc => (hd.2 c hc).2)

theorem getJob_congr {s1 s2 : Scheduler} (h : s1.jobs = s2.jobs) (k : Nat) :
    getJob s1 k = getJob s2 k := by
  unfold getJob
  rw [h]

theorem jobNameD_congr {s1 s2 : Scheduler} (h : s1.jobs = s2.jobs) (k : Nat) :
    jobNameD s1 k = jobNameD s2 k := by
  unfold jobNameD
  rw [getJob_congr h]

/-- Core of `_unregisterJob`'s bookkeeping removal: if `s2` is `s` with job
`i` spliced out of `_runningJobs` and (at most) one channel slot holding `i`
cleared, the invariant holds on `s2` with `i` exempted, and `i` is fully
detached. -/
theorem detach_invE_core {s s2 : Scheduler} {i : Nat} {j : SJob}
    (h : Inv s) (hj : getJob s i = some j) (hmem : i ∈ s.runningJobs)
    (hjobs : s2.jobs = s.jobs)
    (hnext : s2.nextExecutionId = s.nextExecutionId)
    (hrun : s2.runningJobs = s.runningJobs.erase i)
    (hnames : s2.channels.map JobChannel.name = s.channels.map JobChannel.name)
    (hfwd : ∀ c2 ∈ s2.channels, ∃ c0 ∈ s.channels, c2.name = c0.name ∧
        c2.queue = c0.queue ∧ (c2.runningJob = c0.runningJob ∨
          (c2.runningJob = none ∧ c0.runningJob = some i)))
    (hbwd : ∀ c0 ∈ s.channels, ∃ c2 ∈ s2.channels, c2.name = c0.name ∧
        c2.queue = c0.queue ∧ (c2.runningJob = c0.runningJob ∨
          (c2.runningJob = none ∧ c0.runningJob = some i)))
    (hnoslot : ∀ c2 ∈ s2.channels, c2.runningJob ≠ some i) :
    InvE s2 (some i) ∧ Detached s2 i := by
  obtain ⟨j', hj', hph, hto⟩ := h.running_mem i hmem
  rw [hj] at hj'
  obtain rfl := Option.some_inj.mp hj'
  obtain ⟨hjmem, hjid⟩ := getJob_eq_some hj
  have hphne : j.phase ≠ .inChannel := by
    rcases hph with h1 | h1 | h1 <;> rw [h1] <;> intro hcon <;> cases hcon
  have hnotq : ∀ c ∈ s.channels, i ∉ c.queue := by
    intro c hc
    have := h.notq_free j hjmem hphne c hc
    rwa [hjid] at this
  have hrnd : s.runningJobs.Nodup := h.running_nodup
  have hget2 : ∀ k, getJob s2 k = getJob s k := getJob_congr hjobs
  have hnm2 : ∀ k, jobNameD s2 k = jobNameD s k := jobNameD_congr hjobs
  have hmem2 : ∀ j0 : SJob, j0 ∈ s2.jobs ↔ j0 ∈ s.jobs := by rw [hjobs]; simp
  refine ⟨⟨?_, ?_, ?_, ?_, ?_, ?_, ?_, ?_, ?_, ?_, ?_, ?_, ?_, ?_, ?_, ?_, ?_, ?_, ?_⟩, ?_, ?_⟩
  · rw [hjobs]; exact h.ids_nodup
  · intro j0 hj0
    rw [hnext]
    exact h.ids_lt j0 ((hmem2 j0).mp hj0)
  · rw [hnames]; exact h.chan_nodup
  · rw [hrun, List.map_congr_left (fun k _ => hnm2 k)]
    exact h.running_names.sublist ((List.erase_sublist i s.runningJobs).map _)
  · intro k hk
    rw [hrun] at hk
    obtain ⟨jk, hjk, hp, ht⟩ := h.running_mem k (List.mem_of_mem_erase hk)
    exact ⟨jk, by rw [hget2]; exact hjk, hp, ht⟩
  · intro c2 hc2
    obtain ⟨c0, hc0, -, hqe, -⟩ := hfwd c2 hc2
    rw [hqe, List.map_congr_left (fun k _ => hnm2 k)]
    exact h.queue_names c0 hc0
  · intro c2 hc2 k hk
    obtain ⟨c0, hc0, hne, hqe, -⟩ := hfwd c2 hc2
    rw [hqe] at hk
    obtain ⟨jk, hjk, hp, hch⟩ := h.queue_mem c0 hc0 k hk
    exact ⟨jk, by rw [hget2]; exact hjk, hp, by rw [hch, hne]⟩
  · intro c2 hc2 k hk
    obtain ⟨c0, hc0, hne, -, hsl⟩ := hfwd c2 hc2
    rcases hsl with hsl | ⟨hsl, -⟩
    · rw [hsl] at hk
      obtain ⟨hkr, jk, hjk, hch⟩ := h.slot_mem c0 hc0 k hk
      have hki : k ≠ i := by
        intro he
        exact hnoslot c2 hc2 (by rw [← hsl] at hk; rw [hk, he])
      refine ⟨by rw [hrun]; exact (List.mem_erase_of_ne hki).mpr hkr, ?_⟩
      exact ⟨jk, by rw [hget2]; exact hjk, by rw [hch, hne]⟩
    · rw [hsl] at hk; cases hk
  · intro j0 hj0 hp0
    obtain ⟨h1, h2, h3, h4, h5, h6, c0, hc0, hch, hq0⟩ :=
      h.job_inch j0 ((hmem2 j0).mp hj0) hp0
    obtain ⟨c2, hc2, hne, hqe, -⟩ := hbwd c0 hc0
    exact ⟨h1, h2, h3, h4, h5, h6, c2, hc2, by rw [hch, hne], by rw [hqe]; exact hq0⟩
  · intro j0 hj0 hp0
    exact h.job_aS j0 ((hmem2 j0).mp hj0) hp0
  · intro j0 hj0 hp0
    exact h.job_ex j0 ((hmem2 j0).mp hj0) hp0
  · intro j0 hj0 hp0
    exact h.job_aF j0 ((hmem2 j0).mp hj0) hp0
  · intro j0 hj0 hp0
    exact h.job_done j0 ((hmem2 j0).mp hj0) hp0
  · intro j0 hj0 ha0
    exact h.timer_ex j0 ((hmem2 j0).mp hj0) ha0
  · intro j0 hj0 hx0 ht0 hp0
    have hne : j0.executionId ≠ i := fun he => hx0 (by rw [he])
    rw [hrun]
    exact (List.mem_erase_of_ne hne).mpr
      (h.job_running j0 ((hmem2 j0).mp hj0) (by simp) ht0 hp0)
  · intro j0 hj0 hr0 cn' hch0
    rw [hrun] at hr0
    obtain ⟨hne, hr0⟩ := hrnd.mem_erase_iff.mp hr0
    obtain ⟨c0, hc0, hn0, hs0⟩ := h.job_chan_slot j0 ((hmem2 j0).mp hj0) hr0 cn' hch0
    obtain ⟨c2, hc2, hne2, -, hsl⟩ := hbwd c0 hc0
    rcases hsl with hsl | ⟨-, hsl⟩
    · exact ⟨c2, hc2, hne2.trans hn0, by rw [hsl]; exact hs0⟩
    · rw [hsl] at hs0
      exact absurd (Option.some_inj.mp hs0).symm hne
  · intro j0 hj0 hd0
    obtain ⟨hnr, hcf⟩ := h.inactive_free j0 ((hmem2 j0).mp hj0) hd0
    constructor
    · rw [hrun]
      intro hm
      exact hnr (List.mem_of_mem_erase hm)
    · intro c2 hc2
      obtain ⟨c0, hc0, -, hqe, hsl⟩ := hfwd c2 hc2
      obtain ⟨hs0, hq0⟩ := hcf c0 hc0
      refine ⟨?_, by rw [hqe]; exact hq0⟩
      rcases hsl with hsl | ⟨hsl, -⟩
      · rw [hsl]; exact hs0
      · rw [hsl]; intro hcon; cases hcon
  · intro j0 hj0 hp0 c2 hc2
    obtain ⟨c0, hc0, -, hqe, -⟩ := hfwd c2 hc2
    rw [hqe]
    exact h.notq_free j0 ((hmem2 j0).mp hj0) hp0 c0 hc0
  · intro j0 hj0 hp0
    obtain ⟨hnr, hsl⟩ := h.inch_free j0 ((hmem2 j0).mp hj0) hp0
    constructor
    · rw [hrun]
      intro hm
      exact hnr (List.mem_of_mem_erase hm)
    · intro c2 hc2
      obtain ⟨c0, hc0, -, -, hs⟩ := hfwd c2 hc2
      rcases hs with hs | ⟨hs, -⟩
      · rw [hs]; exact hsl c0 hc0
      · rw [hs]; intro hcon; cases hcon
  · rw [hrun]; exact hrnd.not_mem_erase
  · intro c2 hc2
    obtain ⟨c0, hc0, -, hqe, -⟩ := hfwd c2 hc2
    exact ⟨hnoslot c2 hc2, by rw [hqe]; exact hnotq c0 hc0⟩

theorem removeJob_detach_spec {s : Scheduler} {i : Nat} {j : SJob}
    (h : Inv s) (hj : getJob s i = some j) (hmem : i ∈ s.runningJobs) :
    ∃ s2, removeJobFromChannel { s with runningJobs := s.runningJobs.erase i }
        j.channel i = .ok s2 ∧
      InvE s2 (some i) ∧ Detached s2 i ∧ s2.jobs = s.jobs ∧
      s2.nextExecutionId = s.nextExecutionId ∧
      s2.runningJobs = s.runningJobs.erase i ∧
      (∀ c2 ∈ s2.channels, ∀ k ∈ c2.queue, ∃ c ∈ s.channels, c.name = c2.name ∧ k ∈ c.queue) := by
  obtain ⟨hjmem, hjid⟩ := getJob_eq_some hj
  cases hch : j.channel with
  | none =>
      have hnoslot : ∀ c0 ∈ s.channels, c0.runningJob ≠ some i := by
        intro c0 hc0 hcon
        obtain ⟨-, ji0, hji0, hch0⟩ := h.slot_mem c0 hc0 i hcon
        rw [hj] at hji0
        obtain rfl := Option.some_inj.mp hji0
        rw [hch] at hch0
        cases hch0
      obtain ⟨hi2, hd2⟩ := @detach_invE_core s
        { s with runningJobs := s.runningJobs.erase i } i j
        h hj hmem rfl rfl rfl rfl
        (fun c2 hc2 => ⟨c2, hc2, rfl, rfl, .inl rfl⟩)
        (fun c0 hc0 => ⟨c0, hc0, rfl, rfl, .inl rfl⟩)
        (fun c2 hc2 => hnoslot c2 hc2)
      exact ⟨_, by simp [removeJobFromChannel], hi2, hd2, rfl, rfl, rfl,
        fun c2 hc2 k hk => ⟨c2, hc2, rfl, hk⟩⟩
  | some cn =>
      obtain ⟨c, hc, hcn, hcslot⟩ := h.job_chan_slot j hjmem (by rw [hjid]; exact hmem) cn hch
      rw [hjid] at hcslot
      have hfc : findChannel s cn = some c := by
        rw [← hcn]; exact findChannel_of_mem h.chan_nodup hc
      have hcuniq : ∀ c0 ∈ s.channels, c0.name = cn → c0 = c :=
        fun c0 h0 hn0 => chan_mem_unique h hc h0 (hn0.trans hcn.symm)
      have hslotne : ∀ c0 ∈ s.channels, c0.name ≠ cn → c0.runningJob ≠ some i := by
        intro c0 hc0 hne hcon
        obtain ⟨-, ji0, hji0, hch0⟩ := h.slot_mem c0 hc0 i hcon
        rw [hj] at hji0
        obtain rfl := Option.some_inj.mp hji0
        rw [hch] at hch0
        exact hne (Option.some_inj.mp hch0).symm
      have hrm : removeJobFromChannel { s with runningJobs := s.runningJobs.erase i }
          (some cn) i = .ok (setChannel { s with runningJobs := s.runningJobs.erase i }
            cn (fun c0 => { c0 with runningJob := none })) := by
        have hfc2 : findChannel { s with runningJobs := s.runningJobs.erase i } cn = some c := hfc
        simp only [removeJobFromChannel, getChannel, hfc2, hcslot, if_pos rfl,
          eq_self_iff_true, if_true]
      have hmemch : ∀ c2 : JobChannel,
          c2 ∈ (setChannel { s with runningJobs := s.runningJobs.erase i } cn
            (fun c0 => { c0 with runningJob := none })).channels ↔
          ∃ c0 ∈ s.channels, c2 = if c0.name = cn then { c0 with runningJob := none } else c0 :=
        fun c2 => mem_setChannel
      obtain ⟨hi2, hd2⟩ := @detach_invE_core s
        (setChannel { s with runningJobs := s.runningJobs.erase i } cn
          (fun c0 => { c0 with runningJob := none })) i j
        h hj hmem rfl rfl rfl
        (setChannel_map_name _ _ _ (fun _ => rfl))
        (by
          intro c2 hc2
          obtain ⟨c0, hc0, rfl⟩ := (hmemch c2).mp hc2
          by_cases hn0 : c0.name = cn
          · obtain rfl := hcuniq c0 hc0 hn0
            rw [if_pos hn0]
            exact ⟨c0, hc0, rfl, rfl, .inr ⟨rfl, hcslot⟩⟩
          · rw [if_neg hn0]
            exact ⟨c0, hc0, rfl, rfl, .inl rfl⟩)
        (by
          intro c0 hc0
          refine ⟨if c0.name = cn then { c0 with runningJob := none } else c0,
            (hmemch _).mpr ⟨c0, hc0, rfl⟩, ?_⟩
          by_cases hn0 : c0.name = cn
          · obtain rfl := hcuniq c0 hc0 hn0
            rw [if_pos hn0]
            exact ⟨rfl, rfl, .inr ⟨rfl, hcslot⟩⟩
          · rw [if_neg hn0]
            exact ⟨rfl, rfl, .inl rfl⟩)
        (by
          intro c2 hc2
          obtain ⟨c0, hc0, rfl⟩ := (hmemch c2).mp hc2
          by_cases hn0 : c0.name = cn
          · rw [if_pos hn0]
            intro hcon; cases hcon
          · rw [if_neg hn0]
            exact hslotne c0 hc0 hn0)
      refine ⟨_, hrm, hi2, hd2, rfl, rfl, rfl, ?_⟩
      intro c2 hc2 k hk
      obtain ⟨c0, hc0, rfl⟩ := (hmemch c2).mp hc2
      by_cases hn0 : c0.name = cn
      · rw [if_pos hn0] at hk ⊢
        exact ⟨c0, hc0, rfl, hk⟩
      · rw [if_neg hn0] at hk ⊢
        exact ⟨c0, hc0, rfl, hk⟩

theorem unregister_spec {s : Scheduler} {i : Nat} {j : SJob}
    (h : Inv s) (hj : getJob s i = some j) (hmem : i ∈ s.runningJobs) :
    ∃ s1, unregisterJob s i = .ok s1 ∧ InvE s1 (some i) ∧ Detached s1 i ∧
      getJob s1 i = some j ∧ s1.nextExecutionId = s.nextExecutionId ∧
      (∀ k, jobNameD s1 k = jobNameD s k) ∧
      (∃ ext, s1.runningJobs = s.runningJobs.erase i ++ ext ∧
        ∀ k ∈ ext, ∃ c ∈ s.channels, k ∈ c.queue) := by
  obtain ⟨s2, hrm, hi2, hd2, hjobs2, hnext2, hrun2, hqs2⟩ :=
    removeJob_detach_spec h hj hmem
  obtain ⟨s1, hu, hi1, hf1⟩ := tryToUnstall_spec hi2
  refine ⟨s1, ?_, hi1, unstallFrame_detached hf1 hd2, ?_, ?_, ?_, ?_⟩
  · simp only [unregisterJob, if_pos hmem, hj, hrm, hu]
  · rw [unstallFrame_getJob_detached hf1 hd2, getJob_congr hjobs2, hj]
  · rw [hf1.nextId, hnext2]
  · intro k
    rw [hf1.name_pres k, jobNameD_congr hjobs2 k]
  · obtain ⟨ext, hext, hq⟩ := hf1.running_ext
    refine ⟨ext, by rw [hext, hrun2], ?_⟩
    intro k hk
    obtain ⟨c2, hc2, hkc2⟩ := hq k hk
    obtain ⟨c, hcmem, -, hkc⟩ := hqs2 c2 hc2 k hkc2
    exact ⟨c, hcmem, hkc⟩

/-- Updating the record of job `i` in place preserves the invariant, provided
the update keeps identity and channel, starts and ends outside the
`inChannel` phase, and the updated record satisfies the phase clauses. -/
theorem setJob_event_invE {s : Scheduler} {x : Option Nat} (h : InvE s x)
    {i : Nat} {j : SJob} (hJ : getJob s i = some j) (f : SJob → SJob)
    (hid : ∀ j0, (f j0).executionId = j0.executionId)
    (hname : ∀ j0, (f j0).taskName = j0.taskName)
    (hch : (f j).channel = j.channel)
    (hjold : j.phase ≠ .inChannel)
    (hnotinch : (f j).phase ≠ .inChannel)
    (haS : (f j).phase = .awaitingStart → (f j).status = .queued ∧
      (f j).timedOut = false ∧ (f j).timerArmed = false ∧
      (f j).timeoutIdSet = false ∧ (f j).executorInvoked = false ∧ (f j).result = none)
    (hex : (f j).phase = .executing → (f j).status = .running ∧
      (f j).timeoutIdSet = true ∧ (f j).result = none)
    (haF : (f j).phase = .awaitingFinish → (f j).timerArmed = false ∧
      (f j).result.isSome = true ∧ ((f j).status = .running ∨ (f j).status = .queued))
    (hdone : (f j).phase = .done → (f j).status = .finished ∧ (f j).timerArmed = false)
    (htmr : (f j).timerArmed = true → (f j).phase = .executing ∧ (f j).timedOut = false)
    (hrun : some i ≠ x → (f j).timedOut = false →
      ((f j).phase = .awaitingStart ∨ (f j).phase = .executing ∨ (f j).phase = .awaitingFinish) →
      i ∈ s.runningJobs)
    (hrmem : i ∈ s.runningJobs →
      ((f j).phase = .awaitingStart ∨ (f j).phase = .executing ∨ (f j).phase = .awaitingFinish) ∧
      (f j).timedOut = false)
    (hinact : ((f j).timedOut = true ∨ (f j).phase = .done) →
      i ∉ s.runningJobs ∧ ∀ c ∈ s.channels, c.runningJob ≠ some i ∧ i ∉ c.queue) :
    InvE (setJob s i f) x := by
  obtain ⟨hjmem, hjid⟩ := getJob_eq_some hJ
  have hget : ∀ k, getJob (setJob s i f) k =
      if k = i then (getJob s i).map f else getJob s k := getJob_setJob s i f hid
  have hgi : getJob (setJob s i f) i = some (f j) := by
    rw [hget i, if_pos rfl, hJ]; rfl
  have hgo : ∀ k, k ≠ i → getJob (setJob s i f) k = getJob s k := by
    intro k hk; rw [hget k, if_neg hk]
  have hnm : ∀ k, jobNameD (setJob s i f) k = jobNameD s k :=
    jobNameD_setJob s i f hid hname
  have huniq : ∀ j0 ∈ s.jobs, j0.executionId = i → j0 = j :=
    fun j0 h0 hid0 => getJob_mem_unique h.ids_nodup hJ h0 hid0
  have hnotq : ∀ c ∈ s.channels, i ∉ c.queue := by
    intro c hc
    have := h.notq_free j hjmem hjold c hc
    rwa [hjid] at this
  refine ⟨?_, ?_, ?_, ?_, ?_, ?_, ?_, ?_, ?_, ?_, ?_, ?_, ?_, ?_, ?_, ?_, ?_, ?_, ?_⟩
  · rw [setJob_map_executionId s i f hid]; exact h.ids_nodup
  · intro j0 hj0
    rcases mem_setJob.mp hj0 with ⟨j1, hj1, rfl⟩
    have hlt := h.ids_lt j1 hj1
    rw [setJob_nextExecutionId]
    by_cases he : j1.executionId = i
    · rw [if_pos he, hid]; exact hlt
    · rw [if_neg he]; exact hlt
  · exact h.chan_nodup
  · rw [map_jobNameD_setJob s i f hid hname]; exact h.running_names
  · intro k hk
    by_cases hki : k = i
    · subst hki
      exact ⟨f j, hgi, (hrmem hk).1, (hrmem hk).2⟩
    · obtain ⟨jk, hjk, hp, ht⟩ := h.running_mem k hk
      exact ⟨jk, by rw [hgo k hki]; exact hjk, hp, ht⟩
  · intro c hc
    rw [map_jobNameD_setJob s i f hid hname]
    exact h.queue_names c hc
  · intro c hc k hk
    have hki : k ≠ i := fun he => hnotq c hc (he ▸ hk)
    obtain ⟨jk, hjk, hp, hchk⟩ := h.queue_mem c hc k hk
    exact ⟨jk, by rw [hgo k hki]; exact hjk, hp, hchk⟩
  · intro c hc k hk
    obtain ⟨hkr, jk, hjk, hchk⟩ := h.slot_mem c hc k hk
    refine ⟨hkr, ?_⟩
    by_cases hki : k = i
    · subst hki
      have hje : jk = j := by
        rw [hJ] at hjk
        exact (Option.some_inj.mp hjk).symm
      subst hje
      exact ⟨f jk, hgi, by rw [hch]; exact hchk⟩
    · exact ⟨jk, by rw [hgo k hki]; exact hjk, hchk⟩
  · intro j0 hj0 hp0
    rcases mem_setJob.mp hj0 with ⟨j1, hj1, rfl⟩
    by_cases he : j1.executionId = i
    · obtain rfl := huniq j1 hj1 he
      rw [if_pos he] at hp0
      exact absurd hp0 hnotinch
    · rw [if_neg he] at hp0 ⊢
      exact h.job_inch j1 hj1 hp0
  · intro j0 hj0 hp0
    rcases mem_setJob.mp hj0 with ⟨j1, hj1, rfl⟩
    by_cases he : j1.executionId = i
    · obtain rfl := huniq j1 hj1 he
      rw [if_pos he] at hp0 ⊢
      exact haS hp0
    · rw [if_neg he] at hp0 ⊢
      exact h.job_aS j1 hj1 hp0
  · intro j0 hj0 hp0
    rcases mem_setJob.mp hj0 with ⟨j1, hj1, rfl⟩
    by_cases he : j1.executionId = i
    · obtain rfl := huniq j1 hj1 he
      rw [if_pos he] at hp0 ⊢
      exact hex hp0
    · rw [if_neg he] at hp0 ⊢
      exact h.job_ex j1 hj1 hp0
  · intro j0 hj0 hp0
    rcases mem_setJob.mp hj0 with ⟨j1, hj1, rfl⟩
    by_cases he : j1.executionId = i
    · obtain rfl := huniq j1 hj1 he
      rw [if_pos he] at hp0 ⊢
      exact haF hp0
    · rw [if_neg he] at hp0 ⊢
      exact h.job_aF j1 hj1 hp0
  · intro j0 hj0 hp0
    rcases mem_setJob.mp hj0 with ⟨j1, hj1, rfl⟩
    by_cases he : j1.executionId = i
    · obtain rfl := huniq j1 hj1 he
      rw [if_pos he] at hp0 ⊢
      exact hdone hp0
    · rw [if_neg he] at hp0 ⊢
      exact h.job_done j1 hj1 hp0
  · intro j0 hj0 ha0
    rcases mem_setJob.mp hj0 with ⟨j1, hj1, rfl⟩
    by_cases he : j1.executionId = i
    · obtain rfl := huniq j1 hj1 he
      rw [if_pos he] at ha0 ⊢
      exact htmr ha0
    · rw [if_neg he] at ha0 ⊢
      exact h.timer_ex j1 hj1 ha0
  · intro j0 hj0 hx0 ht0 hp0
    rcases mem_setJob.mp hj0 with ⟨j1, hj1, rfl⟩
    by_cases he : j1.executionId = i
    · obtain rfl := huniq j1 hj1 he
      rw [if_pos he] at hx0 ht0 hp0 ⊢
      rw [hid, he] at hx0 ⊢
      exact hrun hx0 ht0 hp0
    · rw [if_neg he] at hx0 ht0 hp0 ⊢
      exact h.job_running j1 hj1 hx0 ht0 hp0
  · intro j0 hj0 hr0 cn0 hch0
    rcases mem_setJob.mp hj0 with ⟨j1, hj1, rfl⟩
    by_cases he : j1.executionId = i
    · obtain rfl := huniq j1 hj1 he
      rw [if_pos he] at hr0 hch0 ⊢
      rw [hid, he] at hr0 ⊢
      rw [hch] at hch0
      obtain ⟨c, hcm, hn, hs⟩ :=
        h.job_chan_slot j1 hj1 (by rw [he]; exact hr0) cn0 hch0
      exact ⟨c, hcm, hn, by rw [← he]; exact hs⟩
    · rw [if_neg he] at hr0 hch0 ⊢
      exact h.job_chan_slot j1 hj1 hr0 cn0 hch0
  · intro j0 hj0 hd0
    rcases mem_setJob.mp hj0 with ⟨j1, hj1, rfl⟩
    by_cases he : j1.executionId = i
    · obtain rfl := huniq j1 hj1 he
      rw [if_pos he] at hd0 ⊢
      rw [hid, he]
      exact hinact hd0
    · rw [if_neg he] at hd0 ⊢
      exact h.inactive_free j1 hj1 hd0
  · intro j0 hj0 hp0 c hc
    rcases mem_setJob.mp hj0 with ⟨j1, hj1, rfl⟩
    by_cases he : j1.executionId = i
    · obtain rfl := huniq j1 hj1 he
      rw [if_pos he]
      rw [hid, he]
      exact hnotq c hc
    · rw [if_neg he] at hp0 ⊢
      exact h.notq_free j1 hj1 hp0 c hc
  · intro j0 hj0 hp0
    rcases mem_setJob.mp hj0 with ⟨j1, hj1, rfl⟩
    by_cases he : j1.executionId = i
    · obtain rfl := huniq j1 hj1 he
      rw [if_pos he] at hp0
      exact absurd hp0 hnotinch
    · rw [if_neg he] at hp0 ⊢
      exact h.inch_free j1 hj1 hp0

/-- Lift the `i`-exempt invariant back to the plain one once job `i`'s record
no longer demands `_runningJobs` membership. -/
theorem InvE.lift {s : Scheduler} {i : Nat} (h : InvE s (some i))
    (hi : ∀ j ∈ s.jobs, j.executionId = i → j.timedOut = false →
      (j.phase = .awaitingStart ∨ j.phase = .executing ∨ j.phase = .awaitingFinish) →
      j.executionId ∈ s.runningJobs) : Inv s := by
  show InvE s none
  refine { h with job_running := ?_ }
  intro j hj hx ht hp
  by_cases he : j.executionId = i
  · exact hi j hj he ht hp
  · exact h.job_running j hj (by simp [he]) ht hp

theorem startOk_inv {s : Scheduler} {i : Nat} {j : SJob} (h : Inv s)
    (hJ : getJob s i = some j) (hph : j.phase = .awaitingStart) (logId : Nat) :
    Inv (startOkStep s i logId) := by
  obtain ⟨hjmem, hjid⟩ := getJob_eq_some hJ
  obtain ⟨hst, hto, harm, htid, hinv, hres⟩ := h.job_aS j hjmem hph
  exact setJob_event_invE h hJ _ (fun _ => rfl) (fun _ => rfl) rfl
    (by rw [hph]; exact fun hcon => nomatch hcon)
    (fun hcon => nomatch hcon)
    (fun hcon => nomatch hcon)
    (fun _ => ⟨rfl, rfl, hres⟩)
    (fun hcon => nomatch hcon)
    (fun hcon => nomatch hcon)
    (fun _ => ⟨rfl, hto⟩)
    (fun _ _ _ => hjid ▸ h.job_running j hjmem (by simp) hto (.inl hph))
    (fun _ => ⟨.inr (.inl rfl), hto⟩)
    (by intro hcon; rcases hcon with hcon | hcon
        · exact absurd hcon (by simp [hto])
        · exact nomatch hcon)

theorem msgs_inv {s : Scheduler} {i : Nat} {j : SJob} (h : Inv s)
    (hJ : getJob s i = some j) (hph : j.phase = .executing)
    (f : SJob → SJob)
    (hf : ∀ j0, ∃ w e, f j0 = { j0 with warnings := w, errors := e }) :
    Inv (setJob s i f) := by
  obtain ⟨hjmem, hjid⟩ := getJob_eq_some hJ
  obtain ⟨hst, htid, hres⟩ := h.job_ex j hjmem hph
  obtain ⟨hto⟩ : ∃ _ : True, True := ⟨trivial, trivial⟩
  obtain ⟨w, e, hfe⟩ := hf j
  have hfid : ∀ j0, (f j0).executionId = j0.executionId := by
    intro j0; obtain ⟨w0, e0, hf0⟩ := hf j0; rw [hf0]
  have hfname : ∀ j0, (f j0).taskName = j0.taskName := by
    intro j0; obtain ⟨w0, e0, hf0⟩ := hf j0; rw [hf0]
  refine setJob_event_invE h hJ f hfid hfname (by rw [hfe]) ?_ ?_ ?_ ?_ ?_ ?_ ?_ ?_ ?_ ?_
  · rw [hph]; exact fun hcon => nomatch hcon
  · rw [hfe]; show j.phase ≠ _; rw [hph]; exact fun hcon => nomatch hcon
  · rw [hfe]; show j.phase = _ → _; rw [hph]
    exact fun hcon => nomatch hcon
  · rw [hfe]; intro _
    exact ⟨hst, htid, hres⟩
  · rw [hfe]; show j.phase = _ → _; rw [hph]
    exact fun hcon => nomatch hcon
  · rw [hfe]; show j.phase = _ → _; rw [hph]
    exact fun hcon => nomatch hcon
  · rw [hfe]; intro ha
    exact h.timer_ex j hjmem ha
  · rw [hfe]; intro _ ht _
    exact hjid ▸ h.job_running j hjmem (by simp) ht (.inr (.inl hph))
  · rw [hfe]; intro hm
    obtain ⟨j2, hj2, hp2, ht2⟩ := h.running_mem i hm
    rw [hJ] at hj2
    obtain rfl := Option.some_inj.mp hj2
    exact ⟨.inr (.inl hph), ht2⟩
  · rw [hfe]; intro hd
    rcases hd with hd | hd
    · exact (hjid ▸ h.inactive_free j hjmem (.inl hd))
    · rw [hph] at hd; exact nomatch hd

/-- The classification continuation, as an in-place job update. -/
theorem execFinish_eq {s : Scheduler} {i : Nat} {j : SJob}
    (hJ : getJob s i = some j) (err : Option String) :
    execFinish s i err = setJob s i (fun j0 => { j0 with
      errors := match err with
        | some msg => j.errors ++ [msg]
        | none => j.errors
      result := some (classify (match err with
        | some msg => j.errors ++ [msg]
        | none => j.errors) j.warnings)
      timerArmed := if !j.timedOut && j.timeoutIdSet then false else j0.timerArmed
      finishCalled := (j.timedOut || j.timeoutIdSet) && j.logId.isSome
      phase := .awaitingFinish }) := by
  unfold execFinish
  rw [hJ]

theorem execFinish_inv {s : Scheduler} {i : Nat} {j : SJob} (h : Inv s)
    (hJ : getJob s i = some j)
    (hph : j.phase = .awaitingStart ∨ j.phase = .executing) (err : Option String) :
    Inv (execFinish s i err) := by
  obtain ⟨hjmem, hjid⟩ := getJob_eq_some hJ
  rw [execFinish_eq hJ err]
  have hto' : i ∈ s.runningJobs → j.timedOut = false := by
    intro hm
    obtain ⟨j2, hj2, -, ht2⟩ := h.running_mem i hm
    rw [hJ] at hj2
    obtain rfl := Option.some_inj.mp hj2
    exact ht2
  have harm' : (if !j.timedOut && j.timeoutIdSet then false else j.timerArmed) = false := by
    rcases hph with hph | hph
    · obtain ⟨-, hto, harm, htid, -, -⟩ := h.job_aS j hjmem hph
      rw [hto, htid, harm]
      simp
    · obtain ⟨-, htid, -⟩ := h.job_ex j hjmem hph
      cases hcase : j.timedOut with
      | true =>
          have harm0 : j.timerArmed = false := by
            cases harm : j.timerArmed with
            | true => rw [(h.timer_ex j hjmem harm).2] at hcase; cases hcase
            | false => rfl
          simp [harm0]
      | false =>
          simp [htid]
  refine setJob_event_invE h hJ _ (fun _ => rfl) (fun _ => rfl) rfl ?_ ?_ ?_ ?_ ?_ ?_ ?_ ?_ ?_ ?_
  · rcases hph with hph | hph <;> rw [hph] <;> exact fun hcon => nomatch hcon
  · exact fun hcon => nomatch hcon
  · exact fun hcon => nomatch hcon
  · exact fun hcon => nomatch hcon
  · intro _
    refine ⟨harm', by simp, ?_⟩
    rcases hph with hph | hph
    · exact .inr (h.job_aS j hjmem hph).1
    · exact .inl (h.job_ex j hjmem hph).1
  · exact fun hcon => nomatch hcon
  · intro ha
    show _ ∧ _
    rw [harm'] at ha
    cases ha
  · intro _ ht _
    show i ∈ s.runningJobs
    exact hjid ▸ h.job_running j hjmem (by simp) ht
      (by rcases hph with hph | hph
          · exact .inl hph
          · exact .inr (.inl hph))
  · intro hm
    exact ⟨.inr (.inr rfl), hto' hm⟩
  · intro hd
    rcases hd with hd | hd
    · exact (hjid ▸ h.inactive_free j hjmem (.inl hd))
    · exact nomatch hd

/-- A terminal in-place update (marking `timedOut` or `finished`) of a job
already spliced out of all bookkeeping restores the unexempted invariant. -/
theorem finalize_detached_inv {s1 : Scheduler} {i : Nat} {j0 : SJob}
    (h1 : InvE s1 (some i)) (hd : Detached s1 i) (hJ1 : getJob s1 i = some j0)
    (f : SJob → SJob)
    (hid : ∀ j, (f j).executionId = j.executionId)
    (hname : ∀ j, (f j).taskName = j.taskName)
    (hch : (f j0).channel = j0.channel)
    (hjold : j0.phase ≠ .inChannel)
    (hnotinch : (f j0).phase ≠ .inChannel)
    (haS : (f j0).phase = .awaitingStart → (f j0).status = .queued ∧
      (f j0).timedOut = false ∧ (f j0).timerArmed = false ∧
      (f j0).timeoutIdSet = false ∧ (f j0).executorInvoked = false ∧ (f j0).result = none)
    (hex : (f j0).phase = .executing → (f j0).status = .running ∧
      (f j0).timeoutIdSet = true ∧ (f j0).result = none)
    (haF : (f j0).phase = .awaitingFinish → (f j0).timerArmed = false ∧
      (f j0).result.isSome = true ∧ ((f j0).status = .running ∨ (f j0).status = .queued))
    (hdone : (f j0).phase = .done → (f j0).status = .finished ∧ (f j0).timerArmed = false)
    (hterm : (f j0).timedOut = true ∨ (f j0).phase = .done)
    (htmr : (f j0).timerArmed = true → False) :
    Inv (setJob s1 i f) := by
  have hinv : InvE (setJob s1 i f) (some i) :=
    setJob_event_invE h1 hJ1 f hid hname hch hjold hnotinch haS hex haF hdone
      (fun ha => (htmr ha).elim)
      (fun hx _ _ => absurd rfl hx)
      (fun hm => absurd hm hd.1)
      (fun _ => ⟨hd.1, fun c hc => hd.2 c hc⟩)
  refine hinv.lift ?_
  intro j2 hj2 he ht hp
  have hgi : getJob (setJob s1 i f) i = some (f j0) := by
    rw [getJob_setJob s1 i f hid, if_pos rfl, hJ1]; rfl
  obtain rfl := getJob_mem_unique hinv.ids_nodup hgi hj2 he
  rcases hterm with hterm | hterm
  · rw [hterm] at ht; cases ht
  · rw [hterm] at hp
    rcases hp with hp | hp | hp <;> cases hp

theorem timerFire_spec {s : Scheduler} {i : Nat} {j : SJob} (h : Inv s)
    (hJ : getJob s i = some j) (harm : j.timerArmed = true) :
    ∃ s1, timerFireStep s i = .ok s1 ∧ Inv s1 ∧ Detached s1 i ∧
      getJob s1 i = some { j with timerArmed := false, timedOut := true } ∧
      s1.nextExecutionId = s.nextExecutionId ∧
      (∀ k, jobNameD s1 k = jobNameD s k) ∧
      (∃ ext, s1.runningJobs = s.runningJobs.erase i ++ ext ∧
        ∀ k ∈ ext, ∃ c ∈ s.channels, k ∈ c.queue) := by
  obtain ⟨hjmem, hjid⟩ := getJob_eq_some hJ
  obtain ⟨hph, hto⟩ := h.timer_ex j hjmem harm
  obtain ⟨hst, htid, hres⟩ := h.job_ex j hjmem hph
  have hmem : i ∈ s.runningJobs :=
    hjid ▸ h.job_running j hjmem (by simp) hto (.inr (.inl hph))
  have h0 : Inv (setJob s i (fun j0 => { j0 with timerArmed := false })) := by
    refine setJob_event_invE h hJ _ (fun _ => rfl) (fun _ => rfl) rfl
      (by rw [hph]; exact fun hcon => nomatch hcon)
      (show j.phase ≠ _ by rw [hph]; exact fun hcon => nomatch hcon)
      (show j.phase = _ → _ by rw [hph]; exact fun hcon => nomatch hcon)
      (fun _ => ⟨hst, htid, hres⟩)
      (show j.phase = _ → _ by rw [hph]; exact fun hcon => nomatch hcon)
      (show j.phase = _ → _ by rw [hph]; exact fun hcon => nomatch hcon)
      (fun hcon => nomatch hcon)
      (fun _ _ _ => hmem)
      (fun _ => ⟨.inr (.inl hph), hto⟩)
      ?_
    intro hd
    rcases hd with hd | hd
    · rw [show ({ j with timerArmed := false } : SJob).timedOut = j.timedOut from rfl,
        hto] at hd
      cases hd
    · rw [show ({ j with timerArmed := false } : SJob).phase = j.phase from rfl,
        hph] at hd
      cases hd
  have hJ0 : getJob (setJob s i (fun j0 => { j0 with timerArmed := false })) i =
      some { j with timerArmed := false } := by
    rw [getJob_setJob s i (fun j0 => { j0 with timerArmed := false })
      (fun _ => rfl), if_pos rfl, hJ]
    rfl
  have hmem0 : i ∈ (setJob s i (fun j0 => { j0 with timerArmed := false })).runningJobs := hmem
  obtain ⟨s1', hu, hi1, hd1, hJ1, hnext1, hnm1, ext, hext, hq⟩ :=
    unregister_spec h0 hJ0 hmem0
  refine ⟨setJob s1' i (fun j0 => { j0 with timedOut := true }), ?_, ?_, ?_, ?_, ?_, ?_, ?_⟩
  · unfold timerFireStep timeoutJob
    rw [hu]
  · exact finalize_detached_inv hi1 hd1 hJ1 _ (fun _ => rfl) (fun _ => rfl) rfl
      (show j.phase ≠ _ by rw [hph]; exact fun hcon => nomatch hcon)
      (show j.phase ≠ _ by rw [hph]; exact fun hcon => nomatch hcon)
      (show j.phase = _ → _ by rw [hph]; exact fun hcon => nomatch hcon)
      (fun _ => ⟨hst, htid, hres⟩)
      (show j.phase = _ → _ by rw [hph]; exact fun hcon => nomatch hcon)
      (show j.phase = _ → _ by rw [hph]; exact fun hcon => nomatch hcon)
      (.inl rfl)
      (fun hcon => nomatch hcon)
  · exact ⟨hd1.1, fun c hc => hd1.2 c hc⟩
  · rw [getJob_setJob s1' i (fun j0 => { j0 with timedOut := true })
      (fun _ => rfl), if_pos rfl, hJ1]
    rfl
  · exact hnext1
  · intro k
    rw [jobNameD_setJob s1' i (fun j0 => { j0 with timedOut := true })
      (fun _ => rfl) (fun _ => rfl) k, hnm1 k,
      jobNameD_setJob s i (fun j0 => { j0 with timerArmed := false })
      (fun _ => rfl) (fun _ => rfl) k]
  · exact ⟨ext, hext, hq⟩

theorem finishStep_spec {s : Scheduler} {i : Nat} {j : SJob} (h : Inv s)
    (hJ : getJob s i = some j) (hph : j.phase = .awaitingFinish) :
    ∃ s1, finishStep s i = .ok s1 ∧ Inv s1 := by
  obtain ⟨hjmem, hjid⟩ := getJob_eq_some hJ
  obtain ⟨harm, hres, hst⟩ := h.job_aF j hjmem hph
  cases hcase : j.timedOut with
  | true =>
      refine ⟨setFinished s i, ?_, ?_⟩
      · unfold finishStep
        rw [hJ]
        simp [hcase]
      · unfold setFinished
        refine setJob_event_invE h hJ _ (fun _ => rfl) (fun _ => rfl) rfl
          (show j.phase ≠ _ by rw [hph]; exact fun hcon => nomatch hcon)
          (fun hcon => nomatch hcon)
          (fun hcon => nomatch hcon)
          (fun hcon => nomatch hcon)
          (fun hcon => nomatch hcon)
          (fun _ => ⟨rfl, harm⟩)
          (fun hcon => nomatch (harm ▸ hcon))
          ?_ ?_ ?_
        · intro _ ht _
          rw [show ({ j with status := JobStatus.finished, phase := Phase.done } : SJob).timedOut
            = j.timedOut from rfl, hcase] at ht
          cases ht
        · intro hm
          exact absurd hm (hjid ▸ (h.inactive_free j hjmem (.inl hcase)).1)
        · intro _
          exact hjid ▸ h.inactive_free j hjmem (.inl hcase)
  | false =>
      have hmem : i ∈ s.runningJobs :=
        hjid ▸ h.job_running j hjmem (by simp) hcase (.inr (.inr hph))
      obtain ⟨s1', hu, hi1, hd1, hJ1, hnext1, hnm1, ext, hext, hq⟩ :=
        unregister_spec h hJ hmem
      obtain ⟨s2, hu2, hi2, hf2⟩ := tryToUnstall_spec hi1
      have hd2 : Detached s2 i := unstallFrame_detached hf2 hd1
      have hJ2 : getJob s2 i = some j := by
        rw [unstallFrame_getJob_detached hf2 hd1]; exact hJ1
      refine ⟨setFinished s2 i, ?_, ?_⟩
      · unfold finishStep
        rw [hJ]
        simp only [hcase, Bool.false_eq_true, if_false]
        rw [hu]
        simp only [hu2]
      · unfold setFinished
        exact finalize_detached_inv hi2 hd2 hJ2 _ (fun _ => rfl) (fun _ => rfl) rfl
          (show j.phase ≠ _ by rw [hph]; exact fun hcon => nomatch hcon)
          (fun hcon => nomatch hcon)
          (fun hcon => nomatch hcon)
          (fun hcon => nomatch hcon)
          (fun hcon => nomatch hcon)
          (fun _ => ⟨rfl, harm⟩)
          (.inr rfl)
          (fun hcon => nomatch (harm ▸ hcon))

theorem find?_key_append_ne {l : List SJob} {nj : SJob} {k : Nat}
    (hk : k ≠ nj.executionId) :
    (l ++ [nj]).find? (fun j => j.executionId == k) =
      l.find? (fun j => j.executionId == k) := by
  rw [List.find?_append]
  cases hf : l.find? (fun j => j.executionId == k) with
  | some j => rfl
  | none =>
      show Option.or none _ = none
      rw [List.find?_cons_of_neg _ (by simp; omega)]
      rfl

theorem find?_key_append_self {l : List SJob} {nj : SJob} {k : Nat}
    (hk : nj.executionId = k)
    (hl : ∀ j ∈ l, j.executionId ≠ k) :
    (l ++ [nj]).find? (fun j => j.executionId == k) = some nj := by
  rw [List.find?_append]
  have h1 : l.find? (fun j => j.executionId == k) = none := by
    rw [List.find?_eq_none]
    intro j hj
    simp [hl j hj]
  rw [h1]
  show Option.or none _ = some nj
  rw [List.find?_cons_of_pos _ (by simp [hk])]
  rfl

/-- Lazily registering an empty channel preserves the invariant. -/
theorem appendChannel_invE {s : Scheduler} {x : Option Nat} (h : InvE s x)
    {cn : String} (hfc : findChannel s cn = none) :
    InvE { s with channels := s.channels ++ [⟨cn, none, []⟩] } x := by
  have hnn : ∀ c ∈ s.channels, c.name ≠ cn := findChannel_eq_none.mp hfc
  refine ⟨h.ids_nodup, h.ids_lt, ?_, h.running_names, h.running_mem, ?_, ?_, ?_,
    ?_, h.job_aS, h.job_ex, h.job_aF, h.job_done, h.timer_ex, h.job_running,
    ?_, ?_, ?_, ?_⟩
  · show ((s.channels ++ [(⟨cn, none, []⟩ : JobChannel)]).map JobChannel.name).Nodup
    rw [List.map_append]
    rw [List.nodup_append]
    refine ⟨h.chan_nodup, by simp, ?_⟩
    intro a ha hb
    simp only [List.map_cons, List.map_nil, List.mem_singleton] at hb
    rcases List.mem_map.mp ha with ⟨c, hc, rfl⟩
    exact hnn c hc hb
  · intro c hc
    rcases List.mem_append.mp hc with hc | hc
    · exact h.queue_names c hc
    · obtain rfl := List.mem_singleton.mp hc
      simp
  · intro c hc k hk
    rcases List.mem_append.mp hc with hc | hc
    · exact h.queue_mem c hc k hk
    · obtain rfl := List.mem_singleton.mp hc
      cases hk
  · intro c hc k hk
    rcases List.mem_append.mp hc with hc | hc
    · exact h.slot_mem c hc k hk
    · obtain rfl := List.mem_singleton.mp hc
      cases hk
  · intro j0 hj0 hp0
    obtain ⟨h1, h2, h3, h4, h5, h6, c, hc, hch, hq⟩ := h.job_inch j0 hj0 hp0
    exact ⟨h1, h2, h3, h4, h5, h6, c, List.mem_append.mpr (.inl hc), hch, hq⟩
  · intro j0 hj0 hr0 cn0 hch0
    obtain ⟨c, hc, hn, hs⟩ := h.job_chan_slot j0 hj0 hr0 cn0 hch0
    exact ⟨c, List.mem_append.mpr (.inl hc), hn, hs⟩
  · intro j0 hj0 hd0
    obtain ⟨hnr, hcf⟩ := h.inactive_free j0 hj0 hd0
    refine ⟨hnr, ?_⟩
    intro c hc
    rcases List.mem_append.mp hc with hc | hc
    · exact hcf c hc
    · obtain rfl := List.mem_singleton.mp hc
      exact ⟨(fun hcon => nomatch hcon), List.not_mem_nil _⟩
  · intro j0 hj0 hp0 c hc
    rcases List.mem_append.mp hc with hc | hc
    · exact h.notq_free j0 hj0 hp0 c hc
    · obtain rfl := List.mem_singleton.mp hc
      exact List.not_mem_nil _
  · intro j0 hj0 hp0
    obtain ⟨hnr, hsl⟩ := h.inch_free j0 hj0 hp0
    refine ⟨hnr, ?_⟩
    intro c hc
    rcases List.mem_append.mp hc with hc | hc
    · exact hsl c hc
    · obtain rfl := List.mem_singleton.mp hc
      exact fun hcon => nomatch hcon

theorem fresh_facts {s1 : Scheduler} {x : Option Nat} (h : InvE s1 x) :
    (∀ j0 ∈ s1.jobs, j0.executionId ≠ s1.nextExecutionId) ∧
    (∀ k ∈ s1.runningJobs, k ≠ s1.nextExecutionId) ∧
    (∀ c ∈ s1.channels, ∀ k ∈ c.queue, k ≠ s1.nextExecutionId) ∧
    (∀ c ∈ s1.channels, ∀ k, c.runningJob = some k → k ≠ s1.nextExecutionId) := by
  have hmem : ∀ k ∈ s1.runningJobs, k ≠ s1.nextExecutionId := by
    intro k hk he
    obtain ⟨jk, hjk, -, -⟩ := h.running_mem k hk
    obtain ⟨hm, hid⟩ := getJob_eq_some hjk
    have := h.ids_lt jk hm
    omega
  refine ⟨?_, hmem, ?_, ?_⟩
  · intro j0 hj0 he
    have := h.ids_lt j0 hj0
    omega
  · intro c hc k hk he
    obtain ⟨jk, hjk, -, -⟩ := h.queue_mem c hc k hk
    obtain ⟨hm, hid⟩ := getJob_eq_some hjk
    have := h.ids_lt jk hm
    omega
  · intro c hc k hs
    exact hmem k (h.slot_mem c hc k hs).1

/-- The state after `_createAndRunJob` admits an unchanneled job: the fresh
job is appended at `awaitingStart` and pushed onto `_runningJobs`. -/
def createdRunState (s1 : Scheduler) (t : String) (timeout : Nat) (silent : Bool) :
    Scheduler :=
  ⟨s1.nextExecutionId + 1,
   s1.jobs ++ [{ newJob s1.nextExecutionId t timeout ⟨none, silent⟩ with
     phase := Phase.awaitingStart }],
   s1.runningJobs ++ [s1.nextExecutionId],
   s1.channels⟩

theorem createExec_spec {s1 : Scheduler} {x : Option Nat} (h : InvE s1 x)
    {t : String} (timeout : Nat) (silent : Bool)
    (hfr : findRunningJob s1 t = none) :
    executeJob { s1 with
        jobs := s1.jobs ++ [newJob s1.nextExecutionId t timeout ⟨none, silent⟩],
        nextExecutionId := s1.nextExecutionId + 1 } s1.nextExecutionId =
      .ok (createdRunState s1 t timeout silent) ∧
    InvE (createdRunState s1 t timeout silent) x ∧
    findRunningJob (createdRunState s1 t timeout silent) t = some s1.nextExecutionId := by
  obtain ⟨hids, hrne, hqne, hsne⟩ := fresh_facts h
  have hnamene : ∀ k ∈ s1.runningJobs, jobNameD s1 k ≠ t := findRunningJob_eq_none.mp hfr
  have hget3 : ∀ k, k ≠ s1.nextExecutionId →
      getJob (createdRunState s1 t timeout silent) k = getJob s1 k := by
    intro k hk
    exact find?_key_append_ne hk
  have hgi3 : getJob (createdRunState s1 t timeout silent) s1.nextExecutionId =
      some { newJob s1.nextExecutionId t timeout ⟨none, silent⟩ with
        phase := Phase.awaitingStart } :=
    find?_key_append_self rfl hids
  have hnm3 : ∀ k, k ≠ s1.nextExecutionId →
      jobNameD (createdRunState s1 t timeout silent) k = jobNameD s1 k := by
    intro k hk
    unfold jobNameD
    rw [hget3 k hk]
  have hnmi : jobNameD (createdRunState s1 t timeout silent) s1.nextExecutionId = t := by
    unfold jobNameD
    rw [hgi3]
    rfl
  have hrunchar : (createdRunState s1 t timeout silent).runningJobs =
      s1.runningJobs ++ [s1.nextExecutionId] := rfl
  have hfr3 : findRunningJob (createdRunState s1 t timeout silent) t =
      some s1.nextExecutionId := by
    unfold findRunningJob
    rw [hrunchar, List.find?_append]
    have h1 : s1.runningJobs.find?
        (fun k => jobNameD (createdRunState s1 t timeout silent) k == t) = none := by
      rw [List.find?_eq_none]
      intro k hk
      rw [hnm3 k (hrne k hk)]
      simp [hnamene k hk]
    rw [h1]
    show Option.or none _ = _
    rw [List.find?_cons_of_pos _ (by rw [hnmi]; simp)]
    rfl
  have hexec : executeJob { s1 with
      jobs := s1.jobs ++ [newJob s1.nextExecutionId t timeout ⟨none, silent⟩],
      nextExecutionId := s1.nextExecutionId + 1 } s1.nextExecutionId =
      .ok (createdRunState s1 t timeout silent) := by
    have hgi2 : getJob { s1 with
        jobs := s1.jobs ++ [newJob s1.nextExecutionId t timeout ⟨none, silent⟩],
        nextExecutionId := s1.nextExecutionId + 1 } s1.nextExecutionId =
        some (newJob s1.nextExecutionId t timeout ⟨none, silent⟩) :=
      find?_key_append_self rfl hids
    have hisr : isRunning { s1 with
        jobs := s1.jobs ++ [newJob s1.nextExecutionId t timeout ⟨none, silent⟩],
        nextExecutionId := s1.nextExecutionId + 1 }
        (newJob s1.nextExecutionId t timeout ⟨none, silent⟩).taskName = false := by
      rw [isRunning_eq_false_iff]
      unfold findRunningJob
      rw [List.find?_eq_none]
      intro k hk
      show ¬(jobNameD _ k == t) = true
      have : jobNameD { s1 with
          jobs := s1.jobs ++ [newJob s1.nextExecutionId t timeout ⟨none, silent⟩],
          nextExecutionId := s1.nextExecutionId + 1 } k = jobNameD s1 k := by
        unfold jobNameD getJob
        show (match (s1.jobs ++ [_]).find? _ with | some j => j.taskName | none => "") = _
        rw [find?_key_append_ne (hrne k hk)]
      rw [this]
      simp [hnamene k hk]
    rw [executeJob_eq_ok hgi2 rfl hisr]
    show Except.ok _ = _
    congr 1
    show setJob _ _ _ = _
    unfold setJob
    show Scheduler.mk _ _ _ _ = Scheduler.mk _ _ _ _
    congr 1
    show (s1.jobs ++ [newJob s1.nextExecutionId t timeout ⟨none, silent⟩]).map _ =
      s1.jobs ++ [{ newJob s1.nextExecutionId t timeout ⟨none, silent⟩ with
        phase := Phase.awaitingStart }]
    rw [List.map_append]
    congr 1
    · refine (List.map_congr_left ?_).trans (List.map_id _)
      intro j0 hj0
      exact if_neg (hids j0 hj0)
    · rw [List.map_cons, List.map_nil,
        if_pos (show (newJob s1.nextExecutionId t timeout ⟨none, silent⟩).executionId
          = s1.nextExecutionId from rfl)]
  refine ⟨hexec, ?_, hfr3⟩
  have hnewmem : ∀ j0 ∈ (createdRunState s1 t timeout silent).jobs,
      j0 ∈ s1.jobs ∨ j0 = { newJob s1.nextExecutionId t timeout ⟨none, silent⟩ with
        phase := Phase.awaitingStart } := by
    intro j0 hj0
    rcases List.mem_append.mp hj0 with hm | hm
    · exact .inl hm
    · exact .inr (List.mem_singleton.mp hm)
  refine ⟨?_, ?_, h.chan_nodup, ?_, ?_, ?_, ?_, ?_, ?_, ?_, ?_, ?_, ?_, ?_, ?_, ?_, ?_, ?_, ?_⟩
  · show ((s1.jobs ++ [_]).map SJob.executionId).Nodup
    rw [List.map_append, List.nodup_append]
    refine ⟨h.ids_nodup, by simp, ?_⟩
    intro a ha hb
    simp only [List.map_cons, List.map_nil, List.mem_singleton] at hb
    rcases List.mem_map.mp ha with ⟨j0, hj0, rfl⟩
    exact hids j0 hj0 (by simpa using hb)
  · intro j0 hj0
    show j0.executionId < s1.nextExecutionId + 1
    rcases hnewmem j0 hj0 with hm | rfl
    · have := h.ids_lt j0 hm; omega
    · show s1.nextExecutionId < s1.nextExecutionId + 1; omega
  · show ((s1.runningJobs ++ [s1.nextExecutionId]).map _).Nodup
    rw [List.map_append, List.nodup_append]
    refine ⟨?_, by simp, ?_⟩
    · have : s1.runningJobs.map (jobNameD (createdRunState s1 t timeout silent)) =
          s1.runningJobs.map (jobNameD s1) :=
        List.map_congr_left (fun k hk => hnm3 k (hrne k hk))
      rw [this]
      exact h.running_names
    · intro a ha hb
      simp only [List.map_cons, List.map_nil, List.mem_singleton, hnmi] at hb
      rcases List.mem_map.mp ha with ⟨k, hk, rfl⟩
      rw [hnm3 k (hrne k hk)] at hb
      exact hnamene k hk hb
  · intro k hk
    rcases List.mem_append.mp hk with hk | hk
    · obtain ⟨jk, hjk, hp, ht⟩ := h.running_mem k hk
      exact ⟨jk, by rw [hget3 k (hrne k hk)]; exact hjk, hp, ht⟩
    · obtain rfl := List.mem_singleton.mp hk
      exact ⟨_, hgi3, .inl rfl, rfl⟩
  · intro c hc
    have : c.queue.map (jobNameD (createdRunState s1 t timeout silent)) =
        c.queue.map (jobNameD s1) :=
      List.map_congr_left (fun k hk => hnm3 k (hqne c hc k hk))
    rw [this]
    exact h.queue_names c hc
  · intro c hc k hk
    obtain ⟨jk, hjk, hp, hch⟩ := h.queue_mem c hc k hk
    exact ⟨jk, by rw [hget3 k (hqne c hc k hk)]; exact hjk, hp, hch⟩
  · intro c hc k hk
    obtain ⟨hkr, jk, hjk, hch⟩ := h.slot_mem c hc k hk
    exact ⟨List.mem_append.mpr (.inl hkr),
      jk, by rw [hget3 k (hsne c hc k hk)]; exact hjk, hch⟩
  · intro j0 hj0 hp0
    rcases hnewmem j0 hj0 with hm | rfl
    · obtain ⟨h1, h2, h3, h4, h5, h6, c, hc, hch, hq⟩ := h.job_inch j0 hm hp0
      exact ⟨h1, h2, h3, h4, h5, h6, c, hc, hch, hq⟩
    · exact absurd hp0 (fun hcon => nomatch hcon)
  · intro j0 hj0 hp0
    rcases hnewmem j0 hj0 with hm | rfl
    · exact h.job_aS j0 hm hp0
    · exact ⟨rfl, rfl, rfl, rfl, rfl, rfl⟩
  · intro j0 hj0 hp0
    rcases hnewmem j0 hj0 with hm | rfl
    · exact h.job_ex j0 hm hp0
    · exact absurd hp0 (fun hcon => nomatch hcon)
  · intro j0 hj0 hp0
    rcases hnewmem j0 hj0 with hm | rfl
    · exact h.job_aF j0 hm hp0
    · exact absurd hp0 (fun hcon => nomatch hcon)
  · intro j0 hj0 hp0
    rcases hnewmem j0 hj0 with hm | rfl
    · exact h.job_done j0 hm hp0
    · exact absurd hp0 (fun hcon => nomatch hcon)
  · intro j0 hj0 ha0
    rcases hnewmem j0 hj0 with hm | rfl
    · exact h.timer_ex j0 hm ha0
    · exact absurd ha0 (fun hcon => nomatch hcon)
  · intro j0 hj0 hx0 ht0 hp0
    rcases hnewmem j0 hj0 with hm | rfl
    · exact List.mem_append.mpr (.inl (h.job_running j0 hm hx0 ht0 hp0))
    · exact List.mem_append.mpr (.inr (List.mem_singleton.mpr rfl))
  · intro j0 hj0 hr0 cn0 hch0
    rcases hnewmem j0 hj0 with hm | rfl
    · have hne : j0.executionId ≠ s1.nextExecutionId := hids j0 hm
      rcases List.mem_append.mp hr0 with hr1 | hr1
      · obtain ⟨c, hc, hn, hs⟩ := h.job_chan_slot j0 hm hr1 cn0 hch0
        exact ⟨c, hc, hn, hs⟩
      · exact absurd (List.mem_singleton.mp hr1) hne
    · exact nomatch hch0
  · intro j0 hj0 hd0
    rcases hnewmem j0 hj0 with hm | rfl
    · obtain ⟨hnr, hcf⟩ := h.inactive_free j0 hm hd0
      refine ⟨?_, hcf⟩
      intro hc
      rcases List.mem_append.mp hc with hc | hc
      · exact hnr hc
      · exact hids j0 hm (List.mem_singleton.mp hc)
    · rcases hd0 with hd0 | hd0 <;> exact nomatch hd0
  · intro j0 hj0 hp0 c hc
    rcases hnewmem j0 hj0 with hm | rfl
    · exact h.notq_free j0 hm hp0 c hc
    · show s1.nextExecutionId ∉ c.queue
      intro hcon
      exact hqne c hc _ hcon rfl
  · intro j0 hj0 hp0
    rcases hnewmem j0 hj0 with hm | rfl
    · obtain ⟨hnr, hsl⟩ := h.inch_free j0 hm hp0
      refine ⟨?_, hsl⟩
      intro hc
      rcases List.mem_append.mp hc with hc | hc
      · exact hnr hc
      · exact hids j0 hm (List.mem_singleton.mp hc)
    · exact absurd hp0 (fun hcon => nomatch hcon)

/-- The state after `_createAndRunJob` appends a channeled job and
`_queueJobToChannel` pushes it onto the channel's queue (before the
promotion attempt). -/
def createdQueuedState (s1 : Scheduler) (t : String) (timeout : Nat) (cn : String)
    (silent : Bool) : Scheduler :=
  setChannel
    { s1 with
      jobs := s1.jobs ++ [newJob s1.nextExecutionId t timeout ⟨some cn, silent⟩]
      nextExecutionId := s1.nextExecutionId + 1 }
    cn (fun c0 => { c0 with queue := c0.queue ++ [s1.nextExecutionId] })

theorem createQueue_spec {s1 : Scheduler} {x : Option Nat} (h : InvE s1 x)
    {t : String} (timeout : Nat) {cn : String} (silent : Bool) {c : JobChannel}
    (hfc : findChannel s1 cn = some c)
    (hqt : c.queue.find? (fun k => jobNameD s1 k == t) = none) :
    InvE (createdQueuedState s1 t timeout cn silent) x ∧
    getJob (createdQueuedState s1 t timeout cn silent) s1.nextExecutionId =
      some (newJob s1.nextExecutionId t timeout ⟨some cn, silent⟩) ∧
    (∀ k, k ≠ s1.nextExecutionId →
      getJob (createdQueuedState s1 t timeout cn silent) k = getJob s1 k) ∧
    findChannel (createdQueuedState s1 t timeout cn silent) cn =
      some { c with queue := c.queue ++ [s1.nextExecutionId] } := by
  obtain ⟨hids, hrne, hqne, hsne⟩ := fresh_facts h
  obtain ⟨hcmem, hcname⟩ := findChannel_eq_some hfc
  have hcuniq : ∀ c0 ∈ s1.channels, c0.name = cn → c0 = c :=
    fun c0 h0 hn0 => chan_mem_unique h hcmem h0 (hn0.trans hcname.symm)
  have hqtn : ∀ k ∈ c.queue, jobNameD s1 k ≠ t := by
    intro k hk hcon
    rw [List.find?_eq_none] at hqt
    exact hqt k hk (by simp [hcon])
  have hget : ∀ k, k ≠ s1.nextExecutionId →
      getJob (createdQueuedState s1 t timeout cn silent) k = getJob s1 k := by
    intro k hk
    show (s1.jobs ++ [newJob s1.nextExecutionId t timeout ⟨some cn, silent⟩]).find?
      (fun j => j.executionId == k) = getJob s1 k
    exact find?_key_append_ne hk
  have hgi : getJob (createdQueuedState s1 t timeout cn silent) s1.nextExecutionId =
      some (newJob s1.nextExecutionId t timeout ⟨some cn, silent⟩) := by
    show (s1.jobs ++ [newJob s1.nextExecutionId t timeout ⟨some cn, silent⟩]).find?
      (fun j => j.executionId == s1.nextExecutionId) = _
    exact find?_key_append_self rfl hids
  have hnm : ∀ k, k ≠ s1.nextExecutionId →
      jobNameD (createdQueuedState s1 t timeout cn silent) k = jobNameD s1 k := by
    intro k hk
    unfold jobNameD
    rw [hget k hk]
  have hnmi : jobNameD (createdQueuedState s1 t timeout cn silent) s1.nextExecutionId = t := by
    unfold jobNameD
    rw [hgi]
    rfl
  have hmemch : ∀ c2 : JobChannel,
      c2 ∈ (createdQueuedState s1 t timeout cn silent).channels ↔
      ∃ c0 ∈ s1.channels, c2 = if c0.name = cn
        then { c0 with queue := c0.queue ++ [s1.nextExecutionId] } else c0 :=
    fun c2 => mem_setChannel
  have hnewmem : ∀ j0 ∈ (createdQueuedState s1 t timeout cn silent).jobs,
      j0 ∈ s1.jobs ∨ j0 = newJob s1.nextExecutionId t timeout ⟨some cn, silent⟩ := by
    intro j0 hj0
    rcases List.mem_append.mp hj0 with hm | hm
    · exact .inl hm
    · exact .inr (List.mem_singleton.mp hm)
  have hfc2 : findChannel (createdQueuedState s1 t timeout cn silent) cn =
      some { c with queue := c.queue ++ [s1.nextExecutionId] } := by
    unfold createdQueuedState
    rw [findChannel_setChannel _ cn
      (fun c0 => { c0 with queue := c0.queue ++ [s1.nextExecutionId] }) (fun _ => rfl) cn]
    show Option.map _ (findChannel s1 cn) = _
    rw [hfc]
    simp [hcname]
  refine ⟨?_, hgi, hget, hfc2⟩
  have hinotr : s1.nextExecutionId ∉ s1.runningJobs := fun hm => hrne _ hm rfl
  refine ⟨?_, ?_, ?_, ?_, ?_, ?_, ?_, ?_, ?_, ?_, ?_, ?_, ?_, ?_, ?_, ?_, ?_, ?_, ?_⟩
  · show ((s1.jobs ++ [_]).map SJob.executionId).Nodup
    rw [List.map_append, List.nodup_append]
    refine ⟨h.ids_nodup, by simp, ?_⟩
    intro a ha hb
    simp only [List.map_cons, List.map_nil, List.mem_singleton] at hb
    rcases List.mem_map.mp ha with ⟨j0, hj0, rfl⟩
    exact hids j0 hj0 (by simpa using hb)
  · intro j0 hj0
    show j0.executionId < s1.nextExecutionId + 1
    rcases hnewmem j0 hj0 with hm | rfl
    · have := h.ids_lt j0 hm; omega
    · show s1.nextExecutionId < s1.nextExecutionId + 1; omega
  · rw [show (createdQueuedState s1 t timeout cn silent).channels.map JobChannel.name
      = s1.channels.map JobChannel.name from setChannel_map_name _ _ _ (fun _ => rfl)]
    exact h.chan_nodup
  · have : (createdQueuedState s1 t timeout cn silent).runningJobs.map
        (jobNameD (createdQueuedState s1 t timeout cn silent)) =
        s1.runningJobs.map (jobNameD s1) :=
      List.map_congr_left (fun k hk => hnm k (hrne k hk))
    rw [this]
    exact h.running_names
  · intro k hk
    obtain ⟨jk, hjk, hp, ht⟩ := h.running_mem k hk
    exact ⟨jk, by rw [hget k (hrne k hk)]; exact hjk, hp, ht⟩
  · intro c2 hc2
    rcases (hmemch c2).mp hc2 with ⟨c0, hc0, rfl⟩
    by_cases hn0 : c0.name = cn
    · obtain rfl := hcuniq c0 hc0 hn0
      rw [if_pos hn0]
      show ((c0.queue ++ [s1.nextExecutionId]).map _).Nodup
      rw [List.map_append, List.nodup_append]
      refine ⟨?_, by simp, ?_⟩
      · rw [List.map_congr_left (fun k hk => hnm k (hqne c0 hc0 k hk))]
        exact h.queue_names c0 hc0
      · intro a ha hb
        simp only [List.map_cons, List.map_nil, List.mem_singleton, hnmi] at hb
        rcases List.mem_map.mp ha with ⟨k, hk, rfl⟩
        rw [hnm k (hqne c0 hc0 k hk)] at hb
        exact hqtn k hk hb
    · rw [if_neg hn0]
      rw [List.map_congr_left (fun k hk => hnm k (hqne c0 hc0 k hk))]
      exact h.queue_names c0 hc0
  · intro c2 hc2 k hk
    rcases (hmemch c2).mp hc2 with ⟨c0, hc0, rfl⟩
    by_cases hn0 : c0.name = cn
    · obtain rfl := hcuniq c0 hc0 hn0
      rw [if_pos hn0] at hk ⊢
      rcases List.mem_append.mp hk with hk | hk
      · obtain ⟨jk, hjk, hp, hch⟩ := h.queue_mem c0 hc0 k hk
        exact ⟨jk, by rw [hget k (hqne c0 hc0 k hk)]; exact hjk, hp, hch⟩
      · obtain rfl := List.mem_singleton.mp hk
        refine ⟨newJob s1.nextExecutionId t timeout ⟨some cn, silent⟩, hgi, rfl, ?_⟩
        show some cn = some _
        rw [hn0]
    · rw [if_neg hn0] at hk ⊢
      obtain ⟨jk, hjk, hp, hch⟩ := h.queue_mem c0 hc0 k hk
      exact ⟨jk, by rw [hget k (hqne c0 hc0 k hk)]; exact hjk, hp, hch⟩
  · intro c2 hc2 k hk
    rcases (hmemch c2).mp hc2 with ⟨c0, hc0, rfl⟩
    have hslot : (if c0.name = cn then
        { c0 with queue := c0.queue ++ [s1.nextExecutionId] } else c0).runningJob
        = c0.runningJob := by
      by_cases hn0 : c0.name = cn
      · rw [if_pos hn0]
      · rw [if_neg hn0]
    rw [hslot] at hk
    obtain ⟨hkr, jk, hjk, hch⟩ := h.slot_mem c0 hc0 k hk
    refine ⟨hkr, jk, by rw [hget k (hsne c0 hc0 k hk)]; exact hjk, ?_⟩
    rw [hch]
    by_cases hn0 : c0.name = cn
    · rw [if_pos hn0]
    · rw [if_neg hn0]
  · intro j0 hj0 hp0
    rcases hnewmem j0 hj0 with hm | rfl
    · obtain ⟨h1, h2, h3, h4, h5, h6, c0, hc0, hch, hq⟩ := h.job_inch j0 hm hp0
      refine ⟨h1, h2, h3, h4, h5, h6, ?_⟩
      by_cases hn0 : c0.name = cn
      · obtain rfl := hcuniq c0 hc0 hn0
        refine ⟨{ c0 with queue := c0.queue ++ [s1.nextExecutionId] },
          (hmemch _).mpr ⟨c0, hc0, by rw [if_pos hn0]⟩, hch, ?_⟩
        exact List.mem_append.mpr (.inl hq)
      · exact ⟨c0, (hmemch _).mpr ⟨c0, hc0, by rw [if_neg hn0]⟩, hch, hq⟩
    · refine ⟨rfl, rfl, rfl, rfl, rfl, rfl, ?_⟩
      refine ⟨{ c with queue := c.queue ++ [s1.nextExecutionId] },
        (hmemch _).mpr ⟨c, hcmem, by rw [if_pos hcname]⟩, ?_, ?_⟩
      · show some cn = some _
        rw [hcname]
      · exact List.mem_append.mpr (.inr (List.mem_singleton.mpr rfl))
  · intro j0 hj0 hp0
    rcases hnewmem j0 hj0 with hm | rfl
    · exact h.job_aS j0 hm hp0
    · exact absurd hp0 (fun hcon => nomatch hcon)
  · intro j0 hj0 hp0
    rcases hnewmem j0 hj0 with hm | rfl
    · exact h.job_ex j0 hm hp0
    · exact absurd hp0 (fun hcon => nomatch hcon)
  · intro j0 hj0 hp0
    rcases hnewmem j0 hj0 with hm | rfl
    · exact h.job_aF j0 hm hp0
    · exact absurd hp0 (fun hcon => nomatch hcon)
  · intro j0 hj0 hp0
    rcases hnewmem j0 hj0 with hm | rfl
    · exact h.job_done j0 hm hp0
    · exact absurd hp0 (fun hcon => nomatch hcon)
  · intro j0 hj0 ha0
    rcases hnewmem j0 hj0 with hm | rfl
    · exact h.timer_ex j0 hm ha0
    · exact absurd ha0 (fun hcon => nomatch hcon)
  · intro j0 hj0 hx0 ht0 hp0
    rcases hnewmem j0 hj0 with hm | rfl
    · exact h.job_running j0 hm hx0 ht0 hp0
    · rcases hp0 with hp0 | hp0 | hp0 <;> exact absurd hp0 (fun hcon => nomatch hcon)
  · intro j0 hj0 hr0 cn0 hch0
    rcases hnewmem j0 hj0 with hm | rfl
    · obtain ⟨c0, hc0, hn0, hs0⟩ := h.job_chan_slot j0 hm hr0 cn0 hch0
      refine ⟨if c0.name = cn then { c0 with queue := c0.queue ++ [s1.nextExecutionId] }
        else c0, (hmemch _).mpr ⟨c0, hc0, rfl⟩, ?_, ?_⟩
      · by_cases hnc : c0.name = cn
        · rw [if_pos hnc]; exact hn0
        · rw [if_neg hnc]; exact hn0
      · by_cases hnc : c0.name = cn
        · rw [if_pos hnc]; exact hs0
        · rw [if_neg hnc]; exact hs0
    · exact absurd hr0 hinotr
  · intro j0 hj0 hd0
    rcases hnewmem j0 hj0 with hm | rfl
    · obtain ⟨hnr, hcf⟩ := h.inactive_free j0 hm hd0
      refine ⟨hnr, ?_⟩
      intro c2 hc2
      rcases (hmemch c2).mp hc2 with ⟨c0, hc0, rfl⟩
      obtain ⟨hs0, hq0⟩ := hcf c0 hc0
      by_cases hn0 : c0.name = cn
      · rw [if_pos hn0]
        refine ⟨hs0, ?_⟩
        intro hcon
        rcases List.mem_append.mp hcon with hcon | hcon
        · exact hq0 hcon
        · exact hids j0 hm (List.mem_singleton.mp hcon)
      · rw [if_neg hn0]
        exact ⟨hs0, hq0⟩
    · rcases hd0 with hd0 | hd0 <;> exact absurd hd0 (fun hcon => nomatch hcon)
  · intro j0 hj0 hp0 c2 hc2
    rcases hnewmem j0 hj0 with hm | rfl
    · rcases (hmemch c2).mp hc2 with ⟨c0, hc0, rfl⟩
      have hnq := h.notq_free j0 hm hp0 c0 hc0
      by_cases hn0 : c0.name = cn
      · rw [if_pos hn0]
        intro hcon
        rcases List.mem_append.mp hcon with hcon | hcon
        · exact hnq hcon
        · exact hids j0 hm (List.mem_singleton.mp hcon)
      · rw [if_neg hn0]
        exact hnq
    · exact absurd rfl hp0
  · intro j0 hj0 hp0
    rcases hnewmem j0 hj0 with hm | rfl
    · obtain ⟨hnr, hsl⟩ := h.inch_free j0 hm hp0
      refine ⟨hnr, ?_⟩
      intro c2 hc2
      rcases (hmemch c2).mp hc2 with ⟨c0, hc0, rfl⟩
      have := hsl c0 hc0
      by_cases hn0 : c0.name = cn
      · rw [if_pos hn0]; exact this
      · rw [if_neg hn0]; exact this
    · refine ⟨hinotr, ?_⟩
      intro c2 hc2
      rcases (hmemch c2).mp hc2 with ⟨c0, hc0, rfl⟩
      have hne : ∀ k, c0.runningJob = some k → k ≠ s1.nextExecutionId := hsne c0 hc0
      by_cases hn0 : c0.name = cn
      · rw [if_pos hn0]
        intro hcon
        exact hne _ hcon rfl
      · rw [if_neg hn0]
        intro hcon
        exact hne _ hcon rfl

theorem findChannel_append_new (s : Scheduler) {cn : String}
    (hfc : findChannel s cn = none) :
    findChannel { s with channels := s.channels ++ [⟨cn, none, []⟩] } cn =
      some ⟨cn, none, []⟩ := by
  show (s.channels ++ [(⟨cn, none, []⟩ : JobChannel)]).find? (fun c => c.name == cn) = _
  rw [List.find?_append, show s.channels.find? (fun c => c.name == cn) = none from hfc]
  show Option.or none _ = _
  rw [List.find?_cons_of_pos _ (by simp)]
  rfl

theorem runTask_spec {s : Scheduler} (h : Inv s) (t : String) (timeout : Nat)
    (opts : TaskOptions) :
    ∃ s1 i, runTask s t timeout opts = .ok (s1, i) ∧ Inv s1 := by
  obtain ⟨och, osil⟩ := opts
  cases hfr : findRunningJob s t with
  | some i =>
      exact ⟨s, i, by simp [runTask, hfr], h⟩
  | none =>
      cases hoc : och with
      | none =>
          obtain ⟨hexec, hinv, -⟩ := createExec_spec (x := none) h timeout osil hfr
          refine ⟨createdRunState s t timeout osil, s.nextExecutionId, ?_, hinv⟩
          simp only [runTask, hfr, findQueuedTaskInChannel, createAndRunJob, hexec,
            Except.map]
      | some cn =>
          cases hfc : findChannel s cn with
          | some c =>
              cases hqf : c.queue.find? (fun k => jobNameD s k == t) with
              | some q =>
                  refine ⟨s, q, ?_, h⟩
                  simp only [runTask, hfr, findQueuedTaskInChannel, getChannel, hfc, hqf]
              | none =>
                  obtain ⟨hinv, -, -, -⟩ :=
                    createQueue_spec (x := none) h timeout osil hfc hqf
                  obtain ⟨s3, htr, hinv3, -, -⟩ := tryRun_spec hinv cn
                  refine ⟨s3, s.nextExecutionId, ?_, hinv3⟩
                  have hfc2 : findChannel { s with
                      jobs := s.jobs ++ [newJob s.nextExecutionId t timeout ⟨some cn, osil⟩]
                      nextExecutionId := s.nextExecutionId + 1 } cn = some c := hfc
                  simp only [runTask, hfr, findQueuedTaskInChannel, getChannel, hfc, hqf,
                    createAndRunJob, queueJobToChannel, hfc2]
                  show Except.map (fun s2 => (s2, s.nextExecutionId))
                    (tryRunNextJobInChannel (createdQueuedState s t timeout cn osil) cn)
                    = Except.ok (s3, s.nextExecutionId)
                  rw [htr]
                  rfl
          | none =>
              have hA : Inv { s with channels := s.channels ++ [⟨cn, none, []⟩] } :=
                appendChannel_invE h hfc
              have hfcA : findChannel { s with channels := s.channels ++ [⟨cn, none, []⟩] } cn =
                  some ⟨cn, none, []⟩ := findChannel_append_new s hfc
              have hfrA : findRunningJob { s with channels := s.channels ++ [⟨cn, none, []⟩] } t =
                  none := hfr
              obtain ⟨hinv, -, -, -⟩ :=
                createQueue_spec (x := none) hA timeout osil hfcA rfl
              obtain ⟨s3, htr, hinv3, -, -⟩ := tryRun_spec hinv cn
              refine ⟨s3, s.nextExecutionId, ?_, hinv3⟩
              have hfc2 : findChannel { s with
                  channels := s.channels ++ [⟨cn, none, []⟩]
                  jobs := s.jobs ++ [newJob s.nextExecutionId t timeout ⟨some cn, osil⟩]
                  nextExecutionId := s.nextExecutionId + 1 } cn = some ⟨cn, none, []⟩ := hfcA
              simp only [runTask, hfr, findQueuedTaskInChannel, getChannel, hfc, hfcA,
                createAndRunJob, queueJobToChannel, hfc2, List.find?_nil]
              show Except.map (fun s2 => (s2, s.nextExecutionId))
                (tryRunNextJobInChannel
                  (createdQueuedState { s with channels := s.channels ++ [⟨cn, none, []⟩] }
                    t timeout cn osil) cn)
                = Except.ok (s3, s.nextExecutionId)
              rw [htr]
              rfl

theorem inv_init : Inv initScheduler := by
  refine ⟨?_, ?_, ?_, ?_, ?_, ?_, ?_, ?_, ?_, ?_, ?_, ?_, ?_, ?_, ?_, ?_, ?_, ?_, ?_⟩ <;>
    first
      | exact List.nodup_nil
      | intro a ha
        exact absurd ha (List.not_mem_nil _)

theorem step_spec {s : Scheduler} (h : Inv s) (e : Event)
    {r : Except SchedError Scheduler} (hs : step s e = some r) :
    ∃ s1, r = .ok s1 ∧ Inv s1 := by
  cases e with
  | runTask t timeout opts =>
      obtain ⟨s1, i, hrt, hinv⟩ := runTask_spec h t timeout opts
      simp only [step, hrt, Except.map, Option.some_inj] at hs
      exact ⟨s1, hs.symm, hinv⟩
  | startOk i logId =>
      simp only [step] at hs
      cases hJ : getJob s i with
      | none => simp only [hJ] at hs; cases hs
      | some j =>
          simp only [hJ] at hs
          by_cases hph : j.phase = .awaitingStart
          · rw [if_pos hph] at hs
            exact ⟨_, (Option.some_inj.mp hs).symm, startOk_inv h hJ hph logId⟩
          · rw [if_neg hph] at hs; cases hs
  | startFail i msg =>
      simp only [step] at hs
      cases hJ : getJob s i with
      | none => simp only [hJ] at hs; cases hs
      | some j =>
          simp only [hJ] at hs
          by_cases hph : j.phase = .awaitingStart
          · rw [if_pos hph] at hs
            exact ⟨_, (Option.some_inj.mp hs).symm, execFinish_inv h hJ (.inl hph) _⟩
          · rw [if_neg hph] at hs; cases hs
  | warn i msg =>
      simp only [step] at hs
      cases hJ : getJob s i with
      | none => simp only [hJ] at hs; cases hs
      | some j =>
          simp only [hJ] at hs
          by_cases hph : j.phase = .executing
          · rw [if_pos hph] at hs
            refine ⟨_, (Option.some_inj.mp hs).symm, ?_⟩
            exact msgs_inv h hJ hph _ (fun j0 => ⟨j0.warnings ++ [msg], j0.errors, rfl⟩)
          · rw [if_neg hph] at hs; cases hs
  | report i msg =>
      simp only [step] at hs
      cases hJ : getJob s i with
      | none => simp only [hJ] at hs; cases hs
      | some j =>
          simp only [hJ] at hs
          by_cases hph : j.phase = .executing
          · rw [if_pos hph] at hs
            refine ⟨_, (Option.some_inj.mp hs).symm, ?_⟩
            exact msgs_inv h hJ hph _ (fun j0 => ⟨j0.warnings, j0.errors ++ [msg], rfl⟩)
          · rw [if_neg hph] at hs; cases hs
  | execDone i threw =>
      simp only [step] at hs
      cases hJ : getJob s i with
      | none => simp only [hJ] at hs; cases hs
      | some j =>
          simp only [hJ] at hs
          by_cases hph : j.phase = .executing
          · rw [if_pos hph] at hs
            exact ⟨_, (Option.some_inj.mp hs).symm, execFinish_inv h hJ (.inr hph) _⟩
          · rw [if_neg hph] at hs; cases hs
  | finishSettle i =>
      simp only [step] at hs
      cases hJ : getJob s i with
      | none => simp only [hJ] at hs; cases hs
      | some j =>
          simp only [hJ] at hs
          by_cases hph : j.phase = .awaitingFinish
          · rw [if_pos hph] at hs
            obtain ⟨s1, hfs, hinv⟩ := finishStep_spec h hJ hph
            rw [hfs] at hs
            exact ⟨s1, (Option.some_inj.mp hs).symm, hinv⟩
          · rw [if_neg hph] at hs; cases hs
  | timerFire i =>
      simp only [step] at hs
      cases hJ : getJob s i with
      | none => simp only [hJ] at hs; cases hs
      | some j =>
          simp only [hJ] at hs
          by_cases harm : j.timerArmed = true
          · rw [if_pos harm] at hs
            obtain ⟨s1, hts, hinv, -⟩ := timerFire_spec h hJ harm
            rw [hts] at hs
            exact ⟨s1, (Option.some_inj.mp hs).symm, hinv⟩
          · rw [if_neg harm] at hs; cases hs

theorem reachable_inv {s : Scheduler} (h : Reachable s) : Inv s := by
  induction h with
  | init => exact inv_init
  | next hr hs ih =>
      rename_i s0 e s1
      obtain ⟨s2, he, hi⟩ := step_spec ih e hs
      obtain rfl := Except.ok.inj he
      exact hi

theorem reachable_runStepsOk : ∀ {es : List Event} {s0 s1 : Scheduler},
    Reachable s0 → runStepsOk s0 es = some s1 → Reachable s1 := by
  intro es
  induction es with
  | nil =>
      intro s0 s1 h hr
      simp only [runStepsOk, Option.some_inj] at hr
      exact hr ▸ h
  | cons e es ih =>
      intro s0 s1 h hr
      simp only [runStepsOk] at hr
      cases hst : step s0 e with
      | none => simp only [hst] at hr; cases hr
      | some r =>
          cases r with
          | error err => simp only [hst] at hr; cases hr
          | ok s2 =>
              simp only [hst] at hr
              exact ih (Reachable.next h hst) hr

theorem reachable_stateAfter (es : List Event) : Reachable (stateAfter es) := by
  unfold stateAfter
  cases hr : runStepsOk initScheduler es with
  | none => exact Reachable.init
  | some s => exact reachable_runStepsOk Reachable.init hr

/-- The number of active bookkeeping entries (running-set members plus queued
members across all channels) whose job is named `t`. -/
def activeNamed (s : Scheduler) (t : String) : Nat :=
  s.runningJobs.countP (fun i => jobNameD s i == t) +
  (s.channels.map (fun c => c.queue.countP (fun i => jobNameD s i == t))).sum

/-- A trace that leaves two active jobs named "t": job 1 queued in channel
"A" (behind "A"'s runner "x") and job 2 running unchanneled (`runTask`'s
duplicate check only scans the running set and the *requested* channel's
queue, so the third call does not see job 1 in channel "A"). -/
def C1trace : List Event :=
  [.runTask "x" 100 ⟨some "A", false⟩,
   .runTask "t" 100 ⟨some "A", false⟩,
   .runTask "t" 100 ⟨some "B", false⟩]

/-- Claim C1, counterexample: a valid sequence of three `runTask` calls ends
with two simultaneously-active bookkeeping entries for the name "t" (one
queued in channel "A", one in the running set), so the claimed union-wide
uniqueness invariant fails. -/
theorem C1_counterexample :
    (runStepsOk initScheduler C1trace).isSome = true ∧
    activeNamed (stateAfter C1trace) "t" = 2 := by
  exact ⟨rfl, rfl⟩

/-- Claim C1 (amended): in every reachable state the task names of the
running set are pairwise distinct and, within each single channel, the task
names of the queued jobs are pairwise distinct; uniqueness across the whole
union {running} ∪ {queued in any channel} does not hold (see the
counterexample). -/
theorem C1_name_uniqueness (s : Scheduler) (h : Reachable s) :
    (s.runningJobs.map (jobNameD s)).Nodup ∧
    ∀ c ∈ s.channels, (c.queue.map (jobNameD s)).Nodup :=
  ⟨(reachable_inv h).running_names, (reachable_inv h).queue_names⟩

/-- Witness for the amended C1 theorem at the counterexample's final state. -/
theorem C1_witness :
    ((stateAfter C1trace).runningJobs.map (jobNameD (stateAfter C1trace))).Nodup ∧
    ∀ c ∈ (stateAfter C1trace).channels,
      (c.queue.map (jobNameD (stateAfter C1trace))).Nodup :=
  C1_name_uniqueness (stateAfter C1trace) (reachable_stateAfter C1trace)

/-- A single unchanneled `runTask` call: job 0 named "t" is running. -/
def C2trace : List Event := [.runTask "t" 100 ⟨none, false⟩]

/-- Claim C2: `runTask` is idempotent while a same-named job is active.  If a
job named `t` is in the running set, or the requested channel's queue holds
one, `runTask` returns that job's id and the state unchanged (no new job is
constructed and no executor starts); consequently two unchanneled `runTask`
calls with the same name in immediate succession return the identical job id
and the work is admitted at most once. -/
theorem C2_runTask_idempotent (s : Scheduler) (t : String) (h : Inv s)
    (timeout timeout2 : Nat) (opts : TaskOptions) (sil sil2 : Bool) :
    (∀ i, (findRunningJob s t = some i ∨
        (findRunningJob s t = none ∧
          (findQueuedTaskInChannel s t opts.channel).2 = some i)) →
      runTask s t timeout opts = .ok (s, i)) ∧
    (∀ s1 i, runTask s t timeout ⟨none, sil⟩ = .ok (s1, i) →
      runTask s1 t timeout2 ⟨none, sil2⟩ = .ok (s1, i)) := by
  have h' : InvE s none := h
  constructor
  · intro i hi
    rcases hi with hi | ⟨hfr, hq⟩
    · simp only [runTask, hi]
    · cases hoc : opts.channel with
      | none =>
          rw [hoc] at hq
          simp only [findQueuedTaskInChannel] at hq
          cases hq
      | some cn =>
          rw [hoc] at hq
          cases hfc : findChannel s cn with
          | none =>
              simp only [findQueuedTaskInChannel, getChannel, hfc,
                List.find?_nil] at hq
              cases hq
          | some c =>
              simp only [findQueuedTaskInChannel, getChannel, hfc] at hq
              simp only [runTask, hfr, findQueuedTaskInChannel, getChannel, hoc, hfc, hq]
  · intro s1 i h2
    cases hfr : findRunningJob s t with
    | some k =>
        simp only [runTask, hfr, Except.ok.injEq, Prod.mk.injEq] at h2
        obtain ⟨rfl, rfl⟩ := h2
        simp only [runTask, hfr]
    | none =>
        obtain ⟨hexec, hinv, hfind⟩ := createExec_spec (x := none) h' timeout sil hfr
        have heq : runTask s t timeout ⟨none, sil⟩ =
            .ok (createdRunState s t timeout sil, s.nextExecutionId) := by
          simp only [runTask, hfr, findQueuedTaskInChannel, createAndRunJob, hexec,
            Except.map]
        rw [heq] at h2
        simp only [Except.ok.injEq, Prod.mk.injEq] at h2
        obtain ⟨rfl, rfl⟩ := h2
        simp only [runTask, hfind]

/-- Witness for C2 at the state after one unchanneled `runTask "t"`: a second
call returns job 0 and leaves the state untouched. -/
theorem C2_witness :
    runTask (stateAfter C2trace) "t" 50 ⟨none, false⟩ = .ok (stateAfter C2trace, 0) :=
  (C2_runTask_idempotent (stateAfter C2trace) "t"
    (reachable_inv (reachable_stateAfter C2trace)) 50 60 ⟨none, false⟩ false false).1 0
    (.inl (by decide))

/-- The scheduler after admitting one unchanneled job named "t". -/
def C10res : Scheduler :=
  ⟨1, [{ newJob 0 "t" 100 ⟨none, false⟩ with phase := .awaitingStart }], [0], []⟩

/-- Claim C10: driven from the fresh scheduler by any sequence of events
(public `runTask` calls, promise settlements, timer firings), an enabled step
never reaches one of the fatal `throw` branches (`Job already executed`,
`already running`, `Orphaned job detected`, `Cannot remove job`): every
enabled transition from a reachable state yields `.ok`, and its result is
again reachable. -/
theorem C10_no_fatal_errors (s : Scheduler) (h : Reachable s) (e : Event)
    (r : Except SchedError Scheduler) (hs : step s e = some r) :
    ∃ s1, r = .ok s1 ∧ Reachable s1 := by
  obtain ⟨s1, hok, -⟩ := step_spec (reachable_inv h) e hs
  exact ⟨s1, hok, Reachable.next h (hok ▸ hs)⟩

/-- Witness for C10: the first `runTask` call from the fresh scheduler. -/
theorem C10_witness :
    ∃ s1, (Except.ok C10res : Except SchedError Scheduler) = .ok s1 ∧ Reachable s1 :=
  C10_no_fatal_errors initScheduler Reachable.init (.runTask "t" 100 ⟨none, false⟩)
    (.ok C10res) rfl

/-- A trace ending with channel "A" stalled: its slot is free and its queue
holds job 1 (named "t"), blocked by the unchanneled running job 2 (also named
"t").  Job 0 ("x") ran in "A" and finished. -/
def C3trace : List Event :=
  [.runTask "x" 100 ⟨some "A", false⟩,
   .runTask "t" 100 ⟨some "A", false⟩,
   .runTask "t" 100 ⟨none, false⟩,
   .startOk 0 7, .execDone 0 none, .finishSettle 0]

/-- Claim C3: channel promotion is FIFO with skipping.  On a channel with a
free slot, `_tryRunNextJobInChannel` promotes exactly the first queued job
whose name is not globally running — the queue decomposes as
`pre ++ i :: post` with every member of `pre` blocked and `i` unblocked, and
the promoted channel keeps the skipped jobs in order (`queue := pre ++ post`)
while `_executeJob` is invoked on `i`; when every queued job is blocked the
scheduler state is returned entirely unchanged (the stall branch only
logs). -/
theorem C3_fifo_promotion (s : Scheduler) (cn : String) (c : JobChannel)
    (hfc : findChannel s cn = some c) (hslot : c.runningJob = none) :
    ((∀ p ∈ c.queue, isRunning s (jobNameD s p) = true) →
      tryRunNextJobInChannel s cn = .ok s) ∧
    (∀ i rest, firstUnblocked s c.queue = some (i, rest) →
      (∃ pre post, c.queue = pre ++ i :: post ∧ rest = pre ++ post ∧
        (∀ p ∈ pre, isRunning s (jobNameD s p) = true) ∧
        isRunning s (jobNameD s i) = false) ∧
      tryRunNextJobInChannel s cn =
        executeJob (setChannel s cn
          (fun c0 => { c0 with queue := rest, runningJob := some i })) i) := by
  constructor
  · intro hall
    have hfu : firstUnblocked s c.queue = none := firstUnblocked_eq_none_iff.mpr hall
    simp [tryRunNextJobInChannel, hfc, hslot, hfu]
  · intro i rest hfu
    refine ⟨firstUnblocked_eq_some hfu, ?_⟩
    simp [tryRunNextJobInChannel, hfc, hslot, hfu]

/-- Witness for C3 at the stalled state of `C3trace`: every queued job of
channel "A" is blocked, and the promotion pass leaves the state unchanged. -/
theorem C3_witness :
    tryRunNextJobInChannel (stateAfter C3trace) "A" = .ok (stateAfter C3trace) :=
  (C3_fifo_promotion (stateAfter C3trace) "A" ⟨"A", none, [1]⟩ (by decide) rfl).1
    (by decide)

/-- One unchanneled job named "t", started: job 0 is executing. -/
def C6trace : List Event := [.runTask "t" 100 ⟨none, false⟩, .startOk 0 3]

/-- Claim C6: result classification and failure containment.  `classify`
computes failure/partial/success with exactly the claimed precedence; when
the executor settles, the scheduler reacts with an `.ok` transition (a
rejection is captured, never propagated): a rejection message is appended to
the error list and the job classifies as failure, a fulfilment classifies
the accumulated lists, and either way the result is recorded and the job
moves to the finish stage. -/
theorem C6_classification (s : Scheduler) (i : Nat) (j : SJob)
    (hJ : getJob s i = some j) (hph : j.phase = .executing) :
    (∀ errors warnings : List String,
      classify errors warnings =
        if errors ≠ [] then .failure
        else if warnings ≠ [] then .partialResult
        else .success) ∧
    (∀ msg, step s (.execDone i (some msg)) = some (.ok (execFinish s i (some msg))) ∧
      ∃ j1, getJob (execFinish s i (some msg)) i = some j1 ∧
        j1.errors = j.errors ++ [msg] ∧ j1.result = some .failure ∧
        j1.warnings = j.warnings ∧ j1.phase = .awaitingFinish) ∧
    (step s (.execDone i none) = some (.ok (execFinish s i none)) ∧
      ∃ j1, getJob (execFinish s i none) i = some j1 ∧
        j1.errors = j.errors ∧ j1.result = some (classify j.errors j.warnings) ∧
        j1.warnings = j.warnings ∧ j1.phase = .awaitingFinish) := by
  have hstep : ∀ threw, step s (.execDone i threw) =
      some (.ok (execFinish s i threw)) := by
    intro threw
    simp only [step, hJ]
    rw [if_pos hph]
  refine ⟨fun _ _ => rfl, ?_, ?_⟩
  · intro msg
    refine ⟨hstep (some msg), ?_⟩
    have hg : getJob (execFinish s i (some msg)) i = some
        { j with
          errors := j.errors ++ [msg]
          result := some (classify (j.errors ++ [msg]) j.warnings)
          timerArmed := if !j.timedOut && j.timeoutIdSet then false else j.timerArmed
          finishCalled := (j.timedOut || j.timeoutIdSet) && j.logId.isSome
          phase := .awaitingFinish } := by
      rw [execFinish_eq hJ (some msg), getJob_setJob _ i
        (fun j0 => { j0 with
          errors := j.errors ++ [msg]
          result := some (classify (j.errors ++ [msg]) j.warnings)
          timerArmed := if !j.timedOut && j.timeoutIdSet then false else j0.timerArmed
          finishCalled := (j.timedOut || j.timeoutIdSet) && j.logId.isSome
          phase := .awaitingFinish })
        (fun _ => rfl) i, if_pos rfl, hJ]
      rfl
    refine ⟨_, hg, rfl, ?_, rfl, rfl⟩
    show some (classify (j.errors ++ [msg]) j.warnings) = some JobResult.failure
    have hne2 : j.errors ++ [msg] ≠ [] := by simp
    simp [classify, hne2]
  · refine ⟨hstep none, ?_⟩
    have hg : getJob (execFinish s i none) i = some
        { j with
          errors := j.errors
          result := some (classify j.errors j.warnings)
          timerArmed := if !j.timedOut && j.timeoutIdSet then false else j.timerArmed
          finishCalled := (j.timedOut || j.timeoutIdSet) && j.logId.isSome
          phase := .awaitingFinish } := by
      rw [execFinish_eq hJ none, getJob_setJob _ i
        (fun j0 => { j0 with
          errors := j.errors
          result := some (classify j.errors j.warnings)
          timerArmed := if !j.timedOut && j.timeoutIdSet then false else j0.timerArmed
          finishCalled := (j.timedOut || j.timeoutIdSet) && j.logId.isSome
          phase := .awaitingFinish })
        (fun _ => rfl) i, if_pos rfl, hJ]
      rfl
    exact ⟨_, hg, rfl, rfl, rfl, rfl⟩

/-- Witness for C6 at the executing job 0 of `C6trace`. -/
theorem C6_witness :
    (∀ errors warnings : List String,
      classify errors warnings =
        if errors ≠ [] then JobResult.failure
        else if warnings ≠ [] then JobResult.partialResult
        else JobResult.success) ∧
    (∀ msg, step (stateAfter C6trace) (.execDone 0 (some msg)) =
        some (.ok (execFinish (stateAfter C6trace) 0 (some msg))) ∧
      ∃ j1, getJob (execFinish (stateAfter C6trace) 0 (some msg)) 0 = some j1 ∧
        j1.errors = [] ++ [msg] ∧ j1.result = some .failure ∧
        j1.warnings = [] ∧ j1.phase = .awaitingFinish) ∧
    (step (stateAfter C6trace) (.execDone 0 none) =
        some (.ok (execFinish (stateAfter C6trace) 0 none)) ∧
      ∃ j1, getJob (execFinish (stateAfter C6trace) 0 none) 0 = some j1 ∧
        j1.errors = [] ∧ j1.result = some (classify [] []) ∧
        j1.warnings = [] ∧ j1.phase = .awaitingFinish) :=
  C6_classification (stateAfter C6trace) 0
    ⟨0, "t", 100, none, false, .running, false, [], [], some 3, true, true,
      none, false, true, .executing⟩ (by decide) rfl

/-- A job whose start-log call rejects and whose chain then settles: the job
completes without its executor ever being invoked. -/
def C7ftrace : List Event :=
  [.runTask "t" 100 ⟨none, false⟩, .startFail 0 "db down", .finishSettle 0]

/-- Claim C7, counterexample: when `dao.cron.startJob` rejects, the rejection
is swallowed by the `.catch` that precedes the executor invocation, so the
executor never runs — the job finishes as a failure with
`executorInvoked = false` (and the finish-log call is skipped too,
`finishCalled = false`), contradicting "the job still runs — its executor is
invoked anyway". -/
theorem C7_counterexample :
    (runStepsOk initScheduler C7ftrace).isSome = true ∧
    (getJob (stateAfter C7ftrace) 0).map SJob.executorInvoked = some false ∧
    (getJob (stateAfter C7ftrace) 0).map SJob.finishCalled = some false ∧
    (getJob (stateAfter C7ftrace) 0).map SJob.phase = some .done ∧
    (getJob (stateAfter C7ftrace) 0).map SJob.result = some (some .failure) := by
  exact ⟨rfl, rfl, rfl, rfl, rfl⟩

/-- Claim C7 (amended): a start-log rejection is captured, not propagated
(the scheduler reacts with an `.ok` transition), the rejection message is
appended to the job's error list and the job classifies as a failure and
moves on to the finish stage — but the executor is never invoked
(`executorInvoked` stays `false`) and the finish-log call is skipped
(`finishCalled = false`), so execution is gated on the start log after
all. -/
theorem C7_start_failure (s : Scheduler) (i : Nat) (j : SJob) (h : Inv s)
    (hJ : getJob s i = some j) (hph : j.phase = .awaitingStart) (msg : String) :
    step s (.startFail i msg) = some (.ok (execFinish s i (some msg))) ∧
    ∃ j1, getJob (execFinish s i (some msg)) i = some j1 ∧
      j1.executorInvoked = false ∧ j1.finishCalled = false ∧
      j1.errors = j.errors ++ [msg] ∧ j1.result = some .failure ∧
      j1.phase = .awaitingFinish := by
  obtain ⟨hjmem, hjid⟩ := getJob_eq_some hJ
  obtain ⟨hst, hto, harm, htid, hinv, hres⟩ := h.job_aS j hjmem hph
  have hstep : step s (.startFail i msg) = some (.ok (execFinish s i (some msg))) := by
    simp only [step, hJ]
    rw [if_pos hph]
  have hg : getJob (execFinish s i (some msg)) i = some
      { j with
        errors := j.errors ++ [msg]
        result := some (classify (j.errors ++ [msg]) j.warnings)
        timerArmed := if !j.timedOut && j.timeoutIdSet then false else j.timerArmed
        finishCalled := (j.timedOut || j.timeoutIdSet) && j.logId.isSome
        phase := .awaitingFinish } := by
    rw [execFinish_eq hJ (some msg), getJob_setJob _ i
      (fun j0 => { j0 with
        errors := j.errors ++ [msg]
        result := some (classify (j.errors ++ [msg]) j.warnings)
        timerArmed := if !j.timedOut && j.timeoutIdSet then false else j0.timerArmed
        finishCalled := (j.timedOut || j.timeoutIdSet) && j.logId.isSome
        phase := .awaitingFinish })
      (fun _ => rfl) i, if_pos rfl, hJ]
    rfl
  refine ⟨hstep, _, hg, hinv, ?_, rfl, ?_, rfl⟩
  · show ((j.timedOut || j.timeoutIdSet) && j.logId.isSome) = false
    rw [hto, htid]
    rfl
  · show some (classify (j.errors ++ [msg]) j.warnings) = some JobResult.failure
    have hne2 : j.errors ++ [msg] ≠ [] := by simp
    simp [classify, hne2]

/-- The freshly admitted unchanneled job 0 named "t", awaiting its start
acknowledgement. -/
def C7wjob : SJob :=
  ⟨0, "t", 100, none, false, .queued, false, [], [], none, false, false,
    none, false, false, .awaitingStart⟩

/-- Witness for the amended C7 theorem at the state after one `runTask`. -/
theorem C7_witness :
    step (stateAfter C2trace) (.startFail 0 "db down") =
      some (.ok (execFinish (stateAfter C2trace) 0 (some "db down"))) ∧
    ∃ j1, getJob (execFinish (stateAfter C2trace) 0 (some "db down")) 0 = some j1 ∧
      j1.executorInvoked = false ∧ j1.finishCalled = false ∧
      j1.errors = C7wjob.errors ++ ["db down"] ∧ j1.result = some .failure ∧
      j1.phase = .awaitingFinish :=
  C7_start_failure (stateAfter C2trace) 0 C7wjob
    (reachable_inv (reachable_stateAfter C2trace)) (by decide) rfl "db down"

/-- Job 2 (named "t", unchanneled) times out while job 1 (also "t") waits in
channel "A"; the timeout's unstall pass promotes job 1. -/
def C4trace : List Event :=
  [.runTask "x" 100 ⟨some "A", false⟩,
   .runTask "t" 100 ⟨some "A", false⟩,
   .runTask "t" 100 ⟨none, false⟩,
   .startOk 2 5, .startOk 0 6, .execDone 0 none, .finishSettle 0,
   .timerFire 2]

/-- Claim C4, counterexample: after job 2 (named "t") times out, a `runTask`
call with name "t" and no channel does *not* create a new execution — it
returns the pre-existing job 1, promoted from channel "A" by the timeout's
own unstall pass, and leaves the state (and the id counter, 3) untouched. -/
theorem C4_counterexample :
    (runStepsOk initScheduler C4trace).isSome = true ∧
    (getJob (stateAfter C4trace) 2).map SJob.taskName = some "t" ∧
    (getJob (stateAfter C4trace) 2).map SJob.timedOut = some true ∧
    runTask (stateAfter C4trace) "t" 100 ⟨none, false⟩ =
      .ok (stateAfter C4trace, 1) ∧
    (stateAfter C4trace).nextExecutionId = 3 := by
  exact ⟨rfl, rfl, rfl, rfl, rfl⟩

/-- Claim C4 (amended): when a job's timer fires, the job is removed from the
running set and from every channel slot and queue (`Detached`) and marked
`timedOut`, while its own record otherwise keeps its status and phase — the
executor is not cancelled.  A later unchanneled `runTask` with the same name
never returns the timed-out job, and when no job of that name is running it
creates and starts a fresh execution immediately; but it may instead return a
same-named job promoted by the timeout's unstall pass (see the
counterexample). -/
theorem C4_timeout_independence (s : Scheduler) (i : Nat) (j : SJob)
    (h : Inv s) (hJ : getJob s i = some j) (harm : j.timerArmed = true) :
    ∃ s1, timerFireStep s i = .ok s1 ∧ Detached s1 i ∧
      getJob s1 i = some { j with timerArmed := false, timedOut := true } ∧
      (∀ timeout2 sil s2 k,
        runTask s1 j.taskName timeout2 ⟨none, sil⟩ = .ok (s2, k) → k ≠ i) ∧
      (∀ timeout2 sil, findRunningJob s1 j.taskName = none →
        runTask s1 j.taskName timeout2 ⟨none, sil⟩ =
          .ok (createdRunState s1 j.taskName timeout2 sil, s1.nextExecutionId) ∧
        findRunningJob (createdRunState s1 j.taskName timeout2 sil) j.taskName =
          some s1.nextExecutionId) := by
  obtain ⟨hjmem, hjid⟩ := getJob_eq_some hJ
  have hilt : i < s.nextExecutionId := hjid ▸ h.ids_lt j hjmem
  obtain ⟨s1, hts, hinv1, hd1, hJ1, hnext1, hnm1, -⟩ := timerFire_spec h hJ harm
  have h1' : InvE s1 none := hinv1
  have hmk : ∀ timeout2 sil, findRunningJob s1 j.taskName = none →
      runTask s1 j.taskName timeout2 ⟨none, sil⟩ =
        .ok (createdRunState s1 j.taskName timeout2 sil, s1.nextExecutionId) ∧
      findRunningJob (createdRunState s1 j.taskName timeout2 sil) j.taskName =
        some s1.nextExecutionId := by
    intro timeout2 sil hfr
    obtain ⟨hexec, hinv2, hfind⟩ := createExec_spec (x := none) h1' timeout2 sil hfr
    refine ⟨?_, hfind⟩
    simp only [runTask, hfr, findQueuedTaskInChannel, createAndRunJob, hexec,
      Except.map]
  refine ⟨s1, hts, hd1, hJ1, ?_, hmk⟩
  intro timeout2 sil s2 k hrt
  cases hfr : findRunningJob s1 j.taskName with
  | some m =>
      simp only [runTask, hfr, Except.ok.injEq, Prod.mk.injEq] at hrt
      obtain ⟨-, rfl⟩ := hrt
      intro hmi
      subst hmi
      exact hd1.1 (findRunningJob_eq_some hfr).1
  | none =>
      rw [(hmk timeout2 sil hfr).1] at hrt
      simp only [Except.ok.injEq, Prod.mk.injEq] at hrt
      obtain ⟨-, rfl⟩ := hrt
      rw [hnext1]
      omega

/-- One unchanneled job named "t", started: job 0 executing with a live
timer. -/
def C4wtrace : List Event := [.runTask "t" 100 ⟨none, false⟩, .startOk 0 5]

/-- Job 0 of `C4wtrace`: running, executing, timer armed. -/
def C4wjob : SJob :=
  ⟨0, "t", 100, none, false, .running, false, [], [], some 5, true, true,
    none, false, true, .executing⟩

/-- Witness for the amended C4 theorem: job 0's timer fires at the state
after `C4wtrace`. -/
theorem C4_witness :
    ∃ s1, timerFireStep (stateAfter C4wtrace) 0 = .ok s1 ∧ Detached s1 0 ∧
      getJob s1 0 = some { C4wjob with timerArmed := false, timedOut := true } ∧
      (∀ timeout2 sil s2 k,
        runTask s1 C4wjob.taskName timeout2 ⟨none, sil⟩ = .ok (s2, k) → k ≠ 0) ∧
      (∀ timeout2 sil, findRunningJob s1 C4wjob.taskName = none →
        runTask s1 C4wjob.taskName timeout2 ⟨none, sil⟩ =
          .ok (createdRunState s1 C4wjob.taskName timeout2 sil, s1.nextExecutionId) ∧
        findRunningJob (createdRunState s1 C4wjob.taskName timeout2 sil)
            C4wjob.taskName = some s1.nextExecutionId) :=
  C4_timeout_independence (stateAfter C4wtrace) 0 C4wjob
    (reachable_inv (reachable_stateAfter C4wtrace)) (by decide) rfl

/-- Job 0 (named "t") times out with its status still `running`; a second
job named "t" is then admitted and started. -/
def C8trace : List Event :=
  [.runTask "t" 100 ⟨none, false⟩, .startOk 0 1, .timerFire 0,
   .runTask "t" 100 ⟨none, false⟩, .startOk 1 2]

/-- Claim C8, counterexample: a timed-out job keeps `status = running` while
the scheduler starts a fresh same-named job, so two jobs named "t"
simultaneously hold `status = running` — exactly in the claimed interval
between the timeout and the stale executor's completion. -/
theorem C8_counterexample :
    (runStepsOk initScheduler C8trace).isSome = true ∧
    (stateAfter C8trace).jobs.countP
      (fun j => j.taskName == "t" && decide (j.status = JobStatus.running)) = 2 := by
  exact ⟨rfl, rfl⟩

/-- Claim C8 (amended): among jobs that have *not* timed out, at most one job
of a given task name holds `status = running` in any reachable state; the
uniqueness claim fails only for the timed-out stale executor, whose status
stays `running` until its chain settles. -/
theorem C8_running_unique (s : Scheduler) (h : Reachable s) :
    ∀ j1 ∈ s.jobs, ∀ j2 ∈ s.jobs, j1.taskName = j2.taskName →
      j1.status = .running → j2.status = .running →
      j1.timedOut = false → j2.timedOut = false → j1 = j2 := by
  have hi := reachable_inv h
  have hphase : ∀ jk ∈ s.jobs, jk.status = .running →
      jk.phase = .executing ∨ jk.phase = .awaitingFinish := by
    intro jk hmk hsk
    cases hp : jk.phase with
    | inChannel => rw [(hi.job_inch jk hmk hp).1] at hsk; exact absurd hsk (by decide)
    | awaitingStart => rw [(hi.job_aS jk hmk hp).1] at hsk; exact absurd hsk (by decide)
    | executing => exact .inl rfl
    | awaitingFinish => exact .inr rfl
    | done => rw [(hi.job_done jk hmk hp).1] at hsk; exact absurd hsk (by decide)
  have hrun : ∀ jk ∈ s.jobs, jk.status = .running → jk.timedOut = false →
      jk.executionId ∈ s.runningJobs := by
    intro jk hmk hsk htk
    rcases hphase jk hmk hsk with hp | hp
    · exact hi.job_running jk hmk (by simp) htk (.inr (.inl hp))
    · exact hi.job_running jk hmk (by simp) htk (.inr (.inr hp))
  intro j1 hm1 j2 hm2 hnm hs1 hs2 ht1 ht2
  have hr1 := hrun j1 hm1 hs1 ht1
  have hr2 := hrun j2 hm2 hs2 ht2
  have hg1 : getJob s j1.executionId = some j1 := getJob_of_mem hi.ids_nodup hm1
  have hg2 : getJob s j2.executionId = some j2 := getJob_of_mem hi.ids_nodup hm2
  have hn1 : jobNameD s j1.executionId = j1.taskName := jobNameD_of_getJob hg1
  have hn2 : jobNameD s j2.executionId = j2.taskName := jobNameD_of_getJob hg2
  have hideq : j1.executionId = j2.executionId :=
    List.inj_on_of_nodup_map hi.running_names hr1 hr2 (by rw [hn1, hn2, hnm])
  rw [hideq, hg2] at hg1
  exact (Option.some_inj.mp hg1).symm

/-- The non-timed-out running job 1 of `C8trace`. -/
def C8wjob : SJob :=
  ⟨1, "t", 100, none, false, .running, false, [], [], some 2, true, true,
    none, false, true, .executing⟩

/-- Witness for the amended C8 theorem at the counterexample's own final
state: job 1 is the unique non-timed-out status-`running` job named "t". -/
theorem C8_witness : C8wjob = C8wjob :=
  C8_running_unique (stateAfter C8trace) (reachable_stateAfter C8trace)
    C8wjob (by decide) C8wjob (by decide) rfl rfl rfl rfl rfl

/-- Job 0 (named "t") starts and times out (status stays `running`, it
leaves the bookkeeping); job 1 ("u") is admitted and is awaiting its start
acknowledgement (status still `queued`, already in the running set). -/
def C9trace : List Event :=
  [.runTask "t" 100 ⟨none, false⟩, .startOk 0 1, .timerFire 0,
   .runTask "u" 100 ⟨none, false⟩]

/-- Claim C9, counterexample: `getRunningJobs` misses the timed-out job 0
whose status is still `running`, and returns job 1 whose status is still
`queued` — both inclusions of the claimed characterization fail. -/
theorem C9_counterexample :
    (runStepsOk initScheduler C9trace).isSome = true ∧
    (stateAfter C9trace).jobs.countP
      (fun j => decide (j.status = JobStatus.running)) = 1 ∧
    (getRunningJobs (stateAfter C9trace)).countP
      (fun j => decide (j.status = JobStatus.running)) = 0 ∧
    (getRunningJobs (stateAfter C9trace)).length = 1 := by
  exact ⟨rfl, rfl, rfl, rfl⟩

/-- Claim C9 (amended): `getRunningJobs` returns exactly the jobs the
scheduler's bookkeeping considers active — the non-timed-out jobs between
admission (`_executeJob`'s push) and unregistration — rather than the jobs
whose `status` field reads `running`: it contains queued-status jobs awaiting
their start acknowledgement and omits timed-out jobs whose status is still
`running`. -/
theorem C9_getRunningJobs (s : Scheduler) (h : Reachable s) :
    (∀ j ∈ getRunningJobs s,
      (j.phase = .awaitingStart ∨ j.phase = .executing ∨ j.phase = .awaitingFinish) ∧
      j.timedOut = false) ∧
    (∀ j ∈ s.jobs, j.timedOut = false →
      (j.phase = .awaitingStart ∨ j.phase = .executing ∨ j.phase = .awaitingFinish) →
      j ∈ getRunningJobs s) := by
  have hi := reachable_inv h
  constructor
  · intro j hj
    obtain ⟨i, hir, hJ⟩ := List.mem_filterMap.mp hj
    obtain ⟨j2, hj2, hph, hto⟩ := hi.running_mem i hir
    rw [hJ] at hj2
    obtain rfl := Option.some_inj.mp hj2
    exact ⟨hph, hto⟩
  · intro j hj hto hph
    have hmem := hi.job_running j hj (by simp) hto hph
    exact List.mem_filterMap.mpr ⟨j.executionId, hmem, getJob_of_mem hi.ids_nodup hj⟩

/-- Witness for the amended C9 theorem at the counterexample's final state. -/
theorem C9_witness :
    (∀ j ∈ getRunningJobs (stateAfter C9trace),
      (j.phase = .awaitingStart ∨ j.phase = .executing ∨ j.phase = .awaitingFinish) ∧
      j.timedOut = false) ∧
    (∀ j ∈ (stateAfter C9trace).jobs, j.timedOut = false →
      (j.phase = .awaitingStart ∨ j.phase = .executing ∨ j.phase = .awaitingFinish) →
      j ∈ getRunningJobs (stateAfter C9trace)) :=
  C9_getRunningJobs (stateAfter C9trace) (reachable_stateAfter C9trace)

/-- No channel is left stalled while holding a promotable job: wherever a
channel's slot is free, every job still queued there carries a task name
that is running. -/
def NoStalledPromotable (s : Scheduler) : Prop :=
  ∀ c ∈ s.channels, c.runningJob = none →
    ∀ q ∈ c.queue, isRunning s (jobNameD s q) = true

theorem isRunning_mono {s s1 : Scheduler} (hf : UnstallFrame s s1) {t : String}
    (h : isRunning s t = true) : isRunning s1 t = true := by
  unfold isRunning findRunningJob at h ⊢
  obtain ⟨k, hk, hpk⟩ := List.find?_isSome.mp h
  apply List.find?_isSome.mpr
  obtain ⟨ext, hext, -⟩ := hf.running_ext
  refine ⟨k, ?_, ?_⟩
  · rw [hext]
    exact List.mem_append.mpr (.inl hk)
  · show (jobNameD s1 k == t) = true
    rw [hf.name_pres k]
    exact hpk

theorem findRunningJob_congr {s1 s2 : Scheduler}
    (hr : s1.runningJobs = s2.runningJobs)
    (hn : ∀ k, jobNameD s1 k = jobNameD s2 k) (t : String) :
    findRunningJob s1 t = findRunningJob s2 t := by
  unfold findRunningJob
  rw [hr]
  generalize s2.runningJobs = l
  induction l with
  | nil => rfl
  | cons a l ih =>
      by_cases hpa : (jobNameD s2 a == t) = true
      · rw [List.find?_cons_of_pos (p := fun i => jobNameD s1 i == t) _
            (by show (jobNameD s1 a == t) = true; rw [hn a]; exact hpa),
          List.find?_cons_of_pos (p := fun i => jobNameD s2 i == t) _ hpa]
      · rw [List.find?_cons_of_neg (p := fun i => jobNameD s1 i == t) _
            (by show ¬(jobNameD s1 a == t) = true; rw [hn a]; exact hpa),
          List.find?_cons_of_neg (p := fun i => jobNameD s2 i == t) _ hpa]
        exact ih

theorem isRunning_congr {s1 s2 : Scheduler} (hr : s1.runningJobs = s2.runningJobs)
    (hn : ∀ k, jobNameD s1 k = jobNameD s2 k) (t : String) :
    isRunning s1 t = isRunning s2 t := by
  unfold isRunning
  rw [findRunningJob_congr hr hn t]

/-- In-place job updates that keep id and name preserve the no-stalled
property. -/
theorem noStalled_setJob (s : Scheduler) (i : Nat) (f : SJob → SJob)
    (hid : ∀ j0, (f j0).executionId = j0.executionId)
    (hname : ∀ j0, (f j0).taskName = j0.taskName)
    (h : NoStalledPromotable s) : NoStalledPromotable (setJob s i f) := by
  intro c hc hslot q hq
  have hc' : c ∈ s.channels := by rw [setJob_channels] at hc; exact hc
  have hq0 := h c hc' hslot q hq
  have hn := fun k => jobNameD_setJob s i f hid hname k
  rw [hn q, isRunning_congr (setJob_runningJobs s i f) hn (jobNameD s q)]
  exact hq0

/-- The promotion loop of `_tryToUnstallChannels` over a duplicate-free list
of channel names: besides preserving the invariant and the frame facts, it
leaves channels outside the list untouched and leaves no listed channel
stalled while holding a promotable job. -/
theorem unstallList_post {x : Option Nat} :
    ∀ (ns : List String) {s : Scheduler}, InvE s x → ns.Nodup →
    ∃ s1, unstallList s ns = .ok s1 ∧ InvE s1 x ∧ UnstallFrame s s1 ∧
      (∀ k, k ∉ ns → findChannel s1 k = findChannel s k) ∧
      (∀ n ∈ ns, ∀ c1, findChannel s1 n = some c1 → c1.runningJob = none →
        ∀ q ∈ c1.queue, isRunning s1 (jobNameD s1 q) = true)
  | [], s, h, _ =>
      ⟨s, rfl, h, .refl s, fun _ _ => rfl, fun n hn => absurd hn (List.not_mem_nil n)⟩
  | n :: ns, s, h, hnd => by
      obtain ⟨hn_notin, hnd'⟩ := List.nodup_cons.mp hnd
      cases hfc : findChannel s n with
      | none =>
          have htr : tryRunNextJobInChannel s n = .ok s := by
            simp [tryRunNextJobInChannel, hfc]
          obtain ⟨s1, he1, hi1, hf1, hpres1, hpost1⟩ := unstallList_post ns h hnd'
          refine ⟨s1, ?_, hi1, hf1, ?_, ?_⟩
          · simp only [unstallList, htr]
            exact he1
          · intro k hk
            exact hpres1 k (fun hm => hk (List.mem_cons_of_mem _ hm))
          · intro m hm c1 hfc1 hslot1 q hq
            rcases List.mem_cons.mp hm with rfl | hm'
            · rw [hpres1 m hn_notin, hfc] at hfc1
              cases hfc1
            · exact hpost1 m hm' c1 hfc1 hslot1 q hq
      | some c =>
          cases hslot : c.runningJob with
          | some r0 =>
              have htr : tryRunNextJobInChannel s n = .ok s := by
                simp [tryRunNextJobInChannel, hfc, hslot]
              obtain ⟨s1, he1, hi1, hf1, hpres1, hpost1⟩ := unstallList_post ns h hnd'
              refine ⟨s1, ?_, hi1, hf1, ?_, ?_⟩
              · simp only [unstallList, htr]
                exact he1
              · intro k hk
                exact hpres1 k (fun hm => hk (List.mem_cons_of_mem _ hm))
              · intro m hm c1 hfc1 hslot1 q hq
                rcases List.mem_cons.mp hm with rfl | hm'
                · rw [hpres1 m hn_notin, hfc] at hfc1
                  obtain rfl := Option.some_inj.mp hfc1
                  rw [hslot] at hslot1
                  cases hslot1
                · exact hpost1 m hm' c1 hfc1 hslot1 q hq
          | none =>
              cases hfu : firstUnblocked s c.queue with
              | none =>
                  have htr : tryRunNextJobInChannel s n = .ok s := by
                    simp [tryRunNextJobInChannel, hfc, hslot, hfu]
                  have hblk := firstUnblocked_eq_none_iff.mp hfu
                  obtain ⟨s1, he1, hi1, hf1, hpres1, hpost1⟩ := unstallList_post ns h hnd'
                  refine ⟨s1, ?_, hi1, hf1, ?_, ?_⟩
                  · simp only [unstallList, htr]
                    exact he1
                  · intro k hk
                    exact hpres1 k (fun hm => hk (List.mem_cons_of_mem _ hm))
                  · intro m hm c1 hfc1 hslot1 q hq
                    rcases List.mem_cons.mp hm with rfl | hm'
                    · rw [hpres1 m hn_notin, hfc] at hfc1
                      obtain rfl := Option.some_inj.mp hfc1
                      rw [hf1.name_pres q]
                      exact isRunning_mono hf1 (hblk q hq)
                    · exact hpost1 m hm' c1 hfc1 hslot1 q hq
              | some pr =>
                  obtain ⟨i0, rest⟩ := pr
                  obtain ⟨htr, hip, hfp, hop⟩ := promote_spec h hfc hslot hfu
                  obtain ⟨s1, he1, hi1, hf1, hpres1, hpost1⟩ := unstallList_post ns hip hnd'
                  refine ⟨s1, ?_, hi1, hfp.trans hf1, ?_, ?_⟩
                  · simp only [unstallList, htr]
                    exact he1
                  · intro k hk
                    have hkn : k ≠ n := fun hkeq => hk (hkeq ▸ List.mem_cons_self n ns)
                    rw [hpres1 k (fun hm => hk (List.mem_cons_of_mem _ hm)), hop k hkn]
                  · intro m hm c1 hfc1 hslot1 q hq
                    rcases List.mem_cons.mp hm with rfl | hm'
                    · obtain ⟨-, hcname⟩ := findChannel_eq_some hfc
                      rw [hpres1 m hn_notin, promoteState_findChannel, hfc] at hfc1
                      simp only [Option.map_some', Option.some_inj] at hfc1
                      rw [if_pos hcname] at hfc1
                      rw [← hfc1] at hslot1
                      cases hslot1
                    · exact hpost1 m hm' c1 hfc1 hslot1 q hq

/-- `_tryToUnstallChannels` re-attempts promotion on every channel: no
channel of the result is stalled while holding a promotable job. -/
theorem tryToUnstall_post {s : Scheduler} {x : Option Nat} (h : InvE s x) :
    ∃ s1, tryToUnstallChannels s = .ok s1 ∧ InvE s1 x ∧ UnstallFrame s s1 ∧
      NoStalledPromotable s1 := by
  obtain ⟨s1, he, hi, hf, -, hpost⟩ :=
    unstallList_post (s.channels.map (fun c => c.name)) h h.chan_nodup
  refine ⟨s1, he, hi, hf, ?_⟩
  intro c1 hc1 hslot1 q hq
  have hname : c1.name ∈ s.channels.map (fun c => c.name) := by
    have hmm : c1.name ∈ s1.channels.map JobChannel.name :=
      List.mem_map_of_mem _ hc1
    rw [hf.chanNames] at hmm
    exact hmm
  exact hpost c1.name hname c1 (findChannel_of_mem hi.chan_nodup hc1) hslot1 q hq

/-- `_unregisterJob` ends with the global unstall pass: besides removing the
job it leaves no channel stalled while holding a promotable job. -/
theorem unregister_post {s : Scheduler} {i : Nat} {j : SJob}
    (h : Inv s) (hj : getJob s i = some j) (hmem : i ∈ s.runningJobs) :
    ∃ s1, unregisterJob s i = .ok s1 ∧ InvE s1 (some i) ∧ getJob s1 i = some j ∧
      NoStalledPromotable s1 := by
  obtain ⟨s2, hrm, hi2, hd2, hjobs2, hnext2, hrun2, hqs2⟩ :=
    removeJob_detach_spec h hj hmem
  obtain ⟨s1, hu, hi1, hf1, hpost⟩ := tryToUnstall_post hi2
  refine ⟨s1, ?_, hi1, ?_, hpost⟩
  · simp only [unregisterJob, if_pos hmem, hj, hrm, hu]
  · rw [unstallFrame_getJob_detached hf1 hd2, getJob_congr hjobs2, hj]

/-- Claim C5: whenever a job times out (`_timeoutJob`) or finishes
(`finishStep`, the final continuation of `_executeJob`), the scheduler
re-attempts promotion on every channel, not just the affected job's: the
resulting state has no channel with a free slot still holding a queued job
whose name is free to run — in particular a job queued in channel B that was
blocked only by a name collision with the finishing or timing-out job is
promoted during this very pass. -/
theorem C5_global_unstall (s : Scheduler) (i : Nat) (j : SJob) (h : Inv s)
    (hJ : getJob s i = some j) :
    (i ∈ s.runningJobs →
      ∃ s1, timeoutJob s i = .ok s1 ∧ NoStalledPromotable s1) ∧
    (j.phase = .awaitingFinish → j.timedOut = false →
      ∃ s1, finishStep s i = .ok s1 ∧ NoStalledPromotable s1) := by
  constructor
  · intro hmem
    obtain ⟨s1, hu, hi1, hJ1, hpost⟩ := unregister_post h hJ hmem
    refine ⟨setJob s1 i (fun j0 => { j0 with timedOut := true }), ?_, ?_⟩
    · unfold timeoutJob
      rw [hu]
    · exact noStalled_setJob s1 i (fun j0 => { j0 with timedOut := true })
        (fun _ => rfl) (fun _ => rfl) hpost
  · intro hph hto
    obtain ⟨hjmem, hjid⟩ := getJob_eq_some hJ
    have hmem : i ∈ s.runningJobs :=
      hjid ▸ h.job_running j hjmem (by simp) hto (.inr (.inr hph))
    obtain ⟨s1, hu, hi1, hJ1, -⟩ := unregister_post h hJ hmem
    obtain ⟨s2, hu2, hi2, hf2, hpost2⟩ := tryToUnstall_post hi1
    refine ⟨setFinished s2 i, ?_, ?_⟩
    · unfold finishStep
      rw [hJ]
      simp only [hto, Bool.false_eq_true, if_false]
      rw [hu]
      simp only [hu2]
    · unfold setFinished
      exact noStalled_setJob s2 i
        (fun j0 => { j0 with status := .finished, phase := .done })
        (fun _ => rfl) (fun _ => rfl) hpost2

/-- Witness for C5 at the state after one unchanneled `runTask "t"` (job 0
in the running set, awaiting its start acknowledgement). -/
theorem C5_witness :
    (0 ∈ (stateAfter C2trace).runningJobs →
      ∃ s1, timeoutJob (stateAfter C2trace) 0 = .ok s1 ∧ NoStalledPromotable s1) ∧
    (C7wjob.phase = .awaitingFinish → C7wjob.timedOut = false →
      ∃ s1, finishStep (stateAfter C2trace) 0 = .ok s1 ∧ NoStalledPromotable s1) :=
  C5_global_unstall (stateAfter C2trace) 0 C7wjob
    (reachable_inv (reachable_stateAfter C2trace)) (by decide)

end CronScheduler
